import Mathlib

/-!
Verification of the phockup file placement engine (`src/phockup.py`,
`src/logger.py`) against its natural-language specification.

Modelling conventions, fixed throughout this file:

* Paths are POSIX strings; `os.path.sep` is `"/"`.  All paths fed to the
  engine are assumed absolute, so `os.path.abspath` is the identity.
* File contents are abstract byte-strings modelled as `Nat`.  The SHA-256
  hexdigest of `src/phockup.py`'s `checksum` is injective and deterministic
  on contents, so a fingerprint is modelled by the content value itself,
  wrapped in `Option`: `some c` is the hexdigest of content `c`, and `none`
  is the empty-string placeholder `''` that `process_file` uses before any
  checksum has been computed.  A real hexdigest is never the empty string,
  which the `Option` wrapping preserves exactly.
* The filesystem is a pair of finite association structures: a `path -> content`
  association list for regular files and a list of created directory paths.
  `shutil.copy2` / `shutil.move` / `os.link` become pure updates; the byte
  copying, metadata preservation and hard-link aliasing are not observable
  by the engine's own reads and are not modelled.
* The external collaborators (exiftool metadata extraction and the `Date`
  resolver, out of scope per the spec) are an oracle `Env` mapping each
  file path to its metadata dictionary and its resolved date.
* `Printer.line` output is captured in a `printed : List String` field;
  `Logger` entries carry no wall-clock timestamp (the timestamp is the only
  dropped field, it is never read back by the program).
* Python exceptions that the code does not catch (`FileNotFoundError` from
  `checksum`/`os.link`, `FileExistsError` from `os.link`) are modelled with
  `Except`;  the unbounded `while True` collision loop takes explicit fuel,
  with `PErr.fuel` signalling exhaustion.
-/

namespace Phockup

/-! ## Path and string primitives (POSIX `os.path` on absolute paths) -/

/-- The POSIX path separator character. -/
def sepC : Char := '/'

/-- Python `s.endswith(t)`. -/
def strEndsWith (s t : String) : Bool := List.isSuffixOf t.data s.data

/-- Python `s.startswith(t)`. -/
def strStartsWith (s t : String) : Bool := List.isPrefixOf t.data s.data

/-- Python `s.lower()` (ASCII case folding suffices for the paths modelled here). -/
def strLower (s : String) : String := ⟨s.data.map Char.toLower⟩

/-- `os.path.basename`: the part of the path after the last separator. -/
def basename (p : String) : String :=
  ⟨(p.data.reverse.takeWhile (fun c => c != sepC)).reverse⟩

/-- `os.path.dirname` (posixpath): everything before the last separator,
with trailing separators stripped unless the result is all separators. -/
def dirname (p : String) : String :=
  let head := (p.data.reverse.dropWhile (fun c => c != sepC)).reverse
  if head = [] then ""
  else if head.all (fun c => c == sepC) then ⟨head⟩
  else ⟨(head.reverse.dropWhile (fun c => c == sepC)).reverse⟩

/-- `os.path.splitext` (posixpath): split at the last dot of the basename,
unless every character of the basename before that dot is itself a dot
(so `".xmp"` has no extension). -/
def splitext (p : String) : String × String :=
  let l := p.data
  let bnRev := l.reverse.takeWhile (fun c => c != sepC)
  let extRev := bnRev.takeWhile (fun c => c != '.')
  let beforeDot := bnRev.drop (extRev.length + 1)
  if extRev.length < bnRev.length ∧ beforeDot.any (fun c => c != '.') then
    (⟨l.take (l.length - (extRev.length + 1))⟩, ⟨l.drop (l.length - (extRev.length + 1))⟩)
  else (p, "")

/-- `os.path.sep.join` on a list of segments. -/
def joinPath : List String → String
  | [] => ""
  | [s] => s
  | s :: rest => s ++ "/" ++ joinPath rest

/-- Auxiliary scan for `removeAll`: delete every left-to-right,
non-overlapping occurrence of the pattern `p :: ps`.  The `fuel` argument
makes the recursion structural (each step consumes at least one character,
so any `fuel` at least the length of the scanned list gives the scan's
fixed point; `removeAll` passes exactly the length). -/
def stripAllAux (p : Char) (ps : List Char) : Nat → List Char → List Char
  | _, [] => []
  | 0, l => l
  | fuel + 1, c :: rest =>
    if c = p ∧ List.isPrefixOf ps rest then
      stripAllAux p ps fuel (rest.drop ps.length)
    else c :: stripAllAux p ps fuel rest

/-- Python `s.replace(pat, '')`: remove every left-to-right, non-overlapping
occurrence of `pat` in `s` (identity when `pat` is empty, as in Python
a fortiori for the engine, which always passes a pattern ending in `/`). -/
def removeAll (s pat : String) : String :=
  match pat.data with
  | [] => s
  | p :: ps => ⟨stripAllAux p ps s.data.length s.data⟩

/-- Auxiliary scan for `containsSub`. -/
def containsSubAux (pat : List Char) : List Char → Bool
  | [] => pat.isEmpty
  | c :: rest => List.isPrefixOf pat (c :: rest) || containsSubAux pat rest

/-- Python `pat in s`: substring occurrence test. -/
def containsSub (s pat : String) : Bool := containsSubAux pat.data s.data

/-- `'%02d' % n` for the natural numbers the engine formats. -/
def pad2 (n : Nat) : String := if n < 10 then "0" ++ toString n else toString n

/-- `'%04d' % n`. -/
def pad4 (n : Nat) : String :=
  if n < 10 then "000" ++ toString n
  else if n < 100 then "00" ++ toString n
  else if n < 1000 then "0" ++ toString n
  else toString n

/-! ## Data model -/

/-- The five action kinds of `src/logger.py`'s `ACTIONS_STR`. -/
inductive Action where
  | copy
  | move
  | link
  | skip
  | ignore
deriving DecidableEq, Repr

/-- One `Logger` entry: source path, destination path, action kind, keyed by
the fingerprint `hashsum` it was recorded under (`none` models the empty
string placeholder).  `src/logger.py` stores entries in a dict keyed by
`hashsum`, each key holding the list of its entries in insertion order; the
model keeps the single chronological list of `(key, entry)` records, from
which each key's ordered bucket is `entriesFor`. -/
structure LogEntry where
  hashsum : Option Nat
  src : String
  dst : String
  action : Action
deriving DecidableEq, Repr

/-- The ordered bucket of entries recorded under one fingerprint key
(`Logger.entries[hashsum]` in the source). -/
def entriesFor (log : List LogEntry) (h : Option Nat) : List LogEntry :=
  log.filter (fun e => e.hashsum == h)

/-- `Logger.add_entry`: append one entry under the given key.  The source's
`assert action in [...]` is vacuous here because `Action` has exactly the
legal constructors. -/
def add_entry (log : List LogEntry) (hashsum : Option Nat) (src dst : String)
    (action : Action) : List LogEntry :=
  log ++ [{ hashsum := hashsum, src := src, dst := dst, action := action }]

/-- The filesystem: regular files as a `path -> content` association list
(later bindings shadow earlier ones, like a store update) and the set of
directories that exist, as a list of paths. -/
structure FS where
  files : List (String × Nat)
  dirs : List String
deriving DecidableEq, Repr

/-- First-match association-list lookup (the store semantics of the model). -/
def assocLookup : List (String × Nat) → String → Option Nat
  | [], _ => none
  | (k, v) :: rest, q => if k = q then some v else assocLookup rest q

/-- `os.path.isfile`. -/
def fsIsFile (fs : FS) (p : String) : Bool := (assocLookup fs.files p).isSome

/-- `os.path.isdir`. -/
def fsIsDir (fs : FS) (p : String) : Bool := fs.dirs.any (fun d => d == p)

/-- Create or overwrite the regular file at `p` with content `c`
(`shutil.copy2` / the write half of `shutil.move` / `os.link`). -/
def fsWrite (fs : FS) (p : String) (c : Nat) : FS :=
  { fs with files := (p, c) :: fs.files }

/-- Remove every binding of path `p` (the unlink half of `shutil.move`). -/
def fsRemove (fs : FS) (p : String) : FS :=
  { fs with files := fs.files.filter (fun e => e.1 != p) }

/-- `os.makedirs` (the engine only ever queries the exact paths it creates,
so recording the full path alone is faithful). -/
def fsMkdirs (fs : FS) (p : String) : FS := { fs with dirs := p :: fs.dirs }

/-- The mutable run state: filesystem, action log, captured printer lines. -/
structure RunState where
  fs : FS
  log : List LogEntry
  printed : List String
deriving DecidableEq, Repr

/-- Capture one `printer.line` call. -/
def stPrint (st : RunState) (line : String) : RunState :=
  { st with printed := st.printed ++ [line] }

/-- Record one logger entry on the run state. -/
def stAddEntry (st : RunState) (h : Option Nat) (src dst : String) (a : Action) :
    RunState :=
  { st with log := add_entry st.log h src dst a }

/-- Uncaught Python exceptions (and fuel exhaustion of the modelled
`while True` loop). -/
inductive PErr where
  | fileNotFound (p : String)
  | fileExists (p : String)
  | fuel
deriving DecidableEq, Repr

deriving instance DecidableEq for Except

/-- The resolved calendar timestamp inside a `datetime` value. -/
structure DateTimeVal where
  year : Nat
  month : Nat
  day : Nat
  hour : Nat
  minute : Nat
  second : Nat
deriving DecidableEq, Repr

/-- The dict returned by `Date.from_exif` as consumed by the engine:
`date['date']` (a `datetime` or `None`), `date['guessing']`,
`date['subseconds']` (empty string models a falsy/absent value).
A Python `False`/`None` result is modelled by `Option.none` at the use
sites. -/
structure DateRec where
  date : Option DateTimeVal
  guessing : Bool
  subseconds : String
deriving DecidableEq, Repr

/-- Oracle for the out-of-scope collaborators, fixed for a run: `exifData`
is `Exif(file).data()` (`none` for a falsy result, otherwise the key/value
dict as an association list), `resolveDate` is
`Date(file).from_exif(...)` for the run's fixed flags. -/
structure Env where
  exifData : String → Option (List (String × String))
  resolveDate : String → Option DateRec

/-- The engine's configuration (`Phockup.__init__` fields used by the
placement logic).  `dirFormat` abstracts `strftime` with the configured
directory pattern; `defaultDirFormat` below is the default `%Y/%m/%d`. -/
structure Config where
  input : String
  output : String
  dirFormat : DateTimeVal → String
  move : Bool
  link : Bool
  original_filenames : Bool
  output_log : Bool
  path_root : String
  dry_run : Bool

/-- The default directory pattern `%Y/%m/%d`, zero-padded. -/
def defaultDirFormat (t : DateTimeVal) : String :=
  pad4 t.year ++ "/" ++ pad2 t.month ++ "/" ++ pad2 t.day

/-! ## The engine (`src/phockup.py`) -/

/-- The fixed `ignored_files` tuple. -/
def ignored_files : List String := [".DS_Store", "Thumbs.db", "ZbThumbnail.info"]

/-- `Phockup.checksum`: the streaming SHA-256 hexdigest of the file's bytes.
Modelled as the content itself (the digest is injective and deterministic);
raises `FileNotFoundError` when the file cannot be opened. -/
def checksum (fs : FS) (file : String) : Except PErr Nat :=
  match assocLookup fs.files file with
  | some c => Except.ok c
  | none => Except.error (PErr.fileNotFound file)

/-- `Phockup.is_image_or_video`: the anchored regex
`^(image/.+|video/.+|application/vnd.adobe.photoshop)$` on the MIME type
(mime strings are assumed newline-free, so `.+` is one-or-more characters). -/
def is_image_or_video (mimetype : String) : Bool :=
  (strStartsWith mimetype "image/" && mimetype.length > 6)
  || (strStartsWith mimetype "video/" && mimetype.length > 6)
  || mimetype = "application/vnd.adobe.photoshop"

/-- The configured root whose prefix is stripped for the `unknown` bucket:
`self.path_root if self.path_root else self.input`. -/
def effectiveRoot (cfg : Config) : String :=
  if cfg.path_root ≠ "" then cfg.path_root else cfg.input

/-- The replacement pattern of `get_output_dir`: the effective root with a
trailing separator appended when missing. -/
def rootRepl (cfg : Config) : String :=
  let repl := effectiveRoot cfg
  if strEndsWith repl "/" then repl else repl ++ "/"

/-- The `unknown` branch of `get_output_dir`:
`[output, 'unknown', dirname(abspath(file)).replace(repl, '')]` joined. -/
def unknownDirPath (cfg : Config) (file : String) : String :=
  joinPath [cfg.output, "unknown", removeAll (dirname file) (rootRepl cfg)]

/-- The path computed by `Phockup.get_output_dir` (pure part): the dated
`archive` path when a non-guess date with a usable `datetime` is present,
the `unknown` bucket otherwise (a `None` datetime makes `strftime` raise,
landing in the same `unknown` branch). -/
def output_dir_path (cfg : Config) (date : Option DateRec) (file : String) : String :=
  match date with
  | some d =>
    if d.guessing = false then
      match d.date with
      | some t => joinPath [cfg.output, "archive", cfg.dirFormat t]
      | none => unknownDirPath cfg file
    else unknownDirPath cfg file
  | none => unknownDirPath cfg file

/-- `Phockup.get_output_dir`: compute the output directory and create it
unless it exists or the run is a dry run. -/
def get_output_dir (cfg : Config) (st : RunState) (date : Option DateRec)
    (file : String) : RunState × String :=
  let fullpath := output_dir_path cfg date file
  if fsIsDir st.fs fullpath = false ∧ cfg.dry_run = false then
    ({ st with fs := fsMkdirs st.fs fullpath }, fullpath)
  else (st, fullpath)

/-- `Phockup.get_file_name`: the synthesized `YYYYMMDD_HHMMSS[subseconds]`
name with the original extension, falling back to the original base name
when original names are requested or any date field is unusable (the
`except` branch). -/
def get_file_name (cfg : Config) (file : String) (date : Option DateRec) : String :=
  if cfg.original_filenames then basename file
  else
    match date with
    | some d =>
      match d.date with
      | some t =>
        pad4 t.year ++ pad2 t.month ++ pad2 t.day ++ "_"
          ++ pad2 t.hour ++ pad2 t.minute ++ pad2 t.second
          ++ d.subseconds ++ (splitext file).2
      | none => basename file
    | none => basename file

/-- The classification test of `get_file_name_and_path`:
`exif_data and 'MIMEType' in exif_data and self.is_image_or_video(...)`
(`none` and the empty dict are both falsy). -/
def classified (env : Env) (file : String) : Bool :=
  match env.exifData file with
  | some kvs =>
    !kvs.isEmpty &&
      (match kvs.lookup "MIMEType" with
       | some m => is_image_or_video m
       | none => false)
  | none => false

/-- `Phockup.get_file_name_and_path`: returns the (possibly directory
creating) updated state plus `output`, `target_file_name`,
`target_file_path`.  Note the source lowercases the classified-branch name
unconditionally (line 232) and then once more when original filenames are
not requested (lines 233-234). -/
def get_file_name_and_path (cfg : Config) (env : Env) (st : RunState)
    (file : String) : RunState × String × String × String :=
  if classified env file then
    let date := env.resolveDate file
    let p := get_output_dir cfg st date file
    let target_file_name := strLower (get_file_name cfg file date)
    let target_file_name :=
      if cfg.original_filenames = false then strLower target_file_name
      else target_file_name
    (p.1, p.2, target_file_name, joinPath [p.2, target_file_name])
  else
    let p := get_output_dir cfg st none file
    let target_file_name := basename file
    (p.1, p.2, target_file_name, joinPath [p.2, target_file_name])

/-- Pure view of the `target_file_name` component of
`get_file_name_and_path` (the name does not depend on the state). -/
def computedName (cfg : Config) (env : Env) (file : String) : String :=
  if classified env file then
    let date := env.resolveDate file
    let n := strLower (get_file_name cfg file date)
    if cfg.original_filenames = false then strLower n else n
  else basename file

/-- Pure view of the `output` component of `get_file_name_and_path`. -/
def computedOutDir (cfg : Config) (env : Env) (file : String) : String :=
  if classified env file then output_dir_path cfg (env.resolveDate file) file
  else output_dir_path cfg none file

/-- Pure view of the `target_file_path` component of
`get_file_name_and_path`. -/
def computedTargetPath (cfg : Config) (env : Env) (file : String) : String :=
  joinPath [computedOutDir cfg env file, computedName cfg env file]

/-- One transfer of a sidecar file (`process_xmp`'s move/link/copy tail):
prints the `orig => path` line, then, unless dry running, applies the
configured strategy.  `shutil.move` and `shutil.copy2` overwrite an
existing destination; `os.link` raises when the destination exists or the
source is gone. -/
def xmpTransfer (cfg : Config) (st : RunState) (orig target output : String) :
    Except PErr RunState :=
  let xmp_path := joinPath [output, target]
  let st := stPrint st (orig ++ " => " ++ xmp_path)
  if cfg.dry_run = false then
    if cfg.move then
      match assocLookup st.fs.files orig with
      | some c => Except.ok { st with fs := fsWrite (fsRemove st.fs orig) xmp_path c }
      | none => Except.error (PErr.fileNotFound orig)
    else if cfg.link then
      if fsIsFile st.fs xmp_path then Except.error (PErr.fileExists xmp_path)
      else
        match assocLookup st.fs.files orig with
        | some c => Except.ok { st with fs := fsWrite st.fs xmp_path c }
        | none => Except.error (PErr.fileNotFound orig)
    else
      match assocLookup st.fs.files orig with
      | some c => Except.ok { st with fs := fsWrite st.fs xmp_path c }
      | none => Except.error (PErr.fileNotFound orig)
  else Except.ok st

/-- `Phockup.process_xmp`: look for `<file>.xmp`, then
`<file without extension>.xmp`; when found, transfer it to
`<file_name><-suffix when suffix > 1>.xmp` resp.
`<file_name without extension><-suffix>.xmp` in the same output directory,
with the primary's strategy. -/
def process_xmp (cfg : Config) (st : RunState) (file file_name : String)
    (suffix : Nat) (output : String) : Except PErr RunState :=
  let xmp_original_with_ext := file ++ ".xmp"
  let xmp_original_without_ext := (splitext file).1 ++ ".xmp"
  let sfx := if suffix > 1 then "-" ++ toString suffix else ""
  if fsIsFile st.fs xmp_original_with_ext then
    xmpTransfer cfg st xmp_original_with_ext (file_name ++ sfx ++ ".xmp") output
  else if fsIsFile st.fs xmp_original_without_ext then
    xmpTransfer cfg st xmp_original_without_ext
      ((splitext file_name).1 ++ sfx ++ ".xmp") output
  else Except.ok st

/-- The common tail of `process_file`'s transfer branch: print the
`' => target'` line, then hand the sidecar to `process_xmp`, then break. -/
def processFinish (cfg : Config) (st : RunState) (file file_name : String)
    (suffix : Nat) (output target : String) : Except PErr RunState :=
  process_xmp cfg (stPrint st (" => " ++ target)) file file_name suffix output

/-- The suffixed candidate path of the collision loop:
`"%s-%d%s" % (splitext(target_file_path) interleaved with suffix)` for
suffixes above one, the plain target path for suffix one. -/
def chainTarget (target_file_path : String) (suffix : Nat) : String :=
  if suffix ≤ 1 then target_file_path
  else (splitext target_file_path).1 ++ "-" ++ toString suffix
    ++ (splitext target_file_path).2

/-- The `while True` collision/transfer loop of `Phockup.process_file`,
with explicit fuel.  `chk` is the Python `checksum` variable: `none` is the
initial `''` placeholder (logging disabled), and it is recomputed from the
source file on every iteration that finds the candidate target existing
when logging is disabled.  A found duplicate records `skip` and stops; a
content mismatch retries with the next numeric suffix; a free candidate
path runs the configured transfer (catching `FileNotFoundError` for move
and copy, but not for link), records the action, prints the target and
processes the sidecar. -/
def processLoop (cfg : Config) (env : Env) (file output tfn tfp : String) :
    Option Nat → Nat → String → RunState → Nat → Except PErr RunState
  | _, _, _, _, 0 => Except.error PErr.fuel
  | chk, suffix, target, st, fuel + 1 =>
    if fsIsFile st.fs target then
      match (if cfg.output_log = false then Except.map some (checksum st.fs file)
             else Except.ok chk) with
      | Except.error e => Except.error e
      | Except.ok chk' =>
        match checksum st.fs target with
        | Except.error e => Except.error e
        | Except.ok tc =>
          if chk' = some tc then
            Except.ok (stPrint (stAddEntry st chk' file target Action.skip)
              (" => skipped, duplicated file " ++ target))
          else
            processLoop cfg env file output tfn tfp chk' (suffix + 1)
              (chainTarget tfp (suffix + 1)) st fuel
    else
      if cfg.move = true ∧ cfg.dry_run = false then
        match assocLookup st.fs.files file with
        | none => Except.ok (stPrint st " => skipped, no such file or directory")
        | some c =>
          processFinish cfg
            (stAddEntry { st with fs := fsWrite (fsRemove st.fs file) target c }
              chk file target Action.move)
            file tfn suffix output target
      else if cfg.link = true ∧ cfg.dry_run = false then
        match assocLookup st.fs.files file with
        | none => Except.error (PErr.fileNotFound file)
        | some c =>
          processFinish cfg
            (stAddEntry { st with fs := fsWrite st.fs target c }
              chk file target Action.link)
            file tfn suffix output target
      else if cfg.dry_run = false then
        match assocLookup st.fs.files file with
        | none => Except.ok (stPrint st " => skipped, no such file or directory")
        | some c =>
          processFinish cfg
            (stAddEntry { st with fs := fsWrite st.fs target c }
              chk file target Action.copy)
            file tfn suffix output target
      else processFinish cfg st file tfn suffix output target

/-- `Phockup.process_file`: skip sidecars, print the file, compute the
target name and path (creating the output directory), compute the
fingerprint upfront when logging is enabled, then run the collision loop
starting at suffix one. -/
def process_file (cfg : Config) (env : Env) (st : RunState) (file : String)
    (fuel : Nat) : Except PErr RunState :=
  if strEndsWith file ".xmp" then Except.ok st
  else
    let st := stPrint st file
    let r := get_file_name_and_path cfg env st file
    match (if cfg.output_log then Except.map some (checksum r.1.fs file)
           else Except.ok none) with
    | Except.error e => Except.error e
    | Except.ok chk =>
      processLoop cfg env file r.2.1 r.2.2.1 r.2.2.2 chk 1 r.2.2.2 r.1 fuel

/-- One iteration of `Phockup.walk_directory`'s inner loop: ignored
operating-system artifacts are fingerprinted and recorded with action
`ignore`; every other file goes to `process_file`. -/
def walk_step (cfg : Config) (env : Env) (st : RunState) (file : String)
    (fuel : Nat) : Except PErr RunState :=
  if ignored_files.any (fun n => n == basename file) then
    match checksum st.fs file with
    | Except.error e => Except.error e
    | Except.ok c => Except.ok (stAddEntry st (some c) file "" Action.ignore)
  else process_file cfg env st file fuel

/-- `Phockup.walk_directory` over an already-discovered list of file paths
(the `os.walk` traversal order - subdirectories and files each visited in
lexical order - is external input to the model). -/
def processAll (cfg : Config) (env : Env) : RunState → List String → Nat →
    Except PErr RunState
  | st, [], _ => Except.ok st
  | st, f :: rest, fuel =>
    match walk_step cfg env st f fuel with
    | Except.error e => Except.error e
    | Except.ok st' => processAll cfg env st' rest fuel

/-! ## Result extraction helpers -/

/-- Files of the final state (empty on an aborted run). -/
def finalFiles : Except PErr RunState → List (String × Nat)
  | Except.ok st => st.fs.files
  | Except.error _ => []

/-- Content at a destination path after a run. -/
def finalLookup (r : Except PErr RunState) (p : String) : Option Nat :=
  assocLookup (finalFiles r) p

/-- Action log of the final state (empty on an aborted run). -/
def logOf : Except PErr RunState → List LogEntry
  | Except.ok st => st.log
  | Except.error _ => []

/-- Captured printer lines of the final state (empty on an aborted run). -/
def printedOf : Except PErr RunState → List String
  | Except.ok st => st.printed
  | Except.error _ => []

/-- Final state with a fallback for the error case. -/
def finalState : Except PErr RunState → RunState → RunState
  | Except.ok st, _ => st
  | Except.error _, dflt => dflt

/-- Did the run complete without an uncaught exception? -/
def runOk : Except PErr RunState → Bool
  | Except.ok _ => true
  | Except.error _ => false

/-- The uncaught exception that aborted a run, if any. -/
def errOf : Except PErr RunState → Option PErr
  | Except.ok _ => none
  | Except.error e => some e

/-! ## Concrete run scenarios used by counterexamples and witnesses -/

/-- Baseline configuration: copy strategy, default date pattern, logging
disabled, not a dry run, no path-root override. -/
def cfgCopy : Config := {
  input := "/in", output := "/out", dirFormat := defaultDirFormat,
  move := false, link := false, original_filenames := false,
  output_log := false, path_root := "", dry_run := false }

/-- Baseline with the action log enabled. -/
def cfgLog : Config := { cfgCopy with output_log := true }

/-- Baseline in dry-run (simulation) mode. -/
def cfgDry : Config := { cfgCopy with dry_run := true }

/-- Baseline with the hard-link strategy. -/
def cfgLink : Config := { cfgCopy with link := true }

/-- Baseline with the move strategy. -/
def cfgMove : Config := { cfgCopy with move := true }

/-- Baseline with preserve-original-names mode. -/
def cfgOrig : Config := { cfgCopy with original_filenames := true }

/-- Oracle: three JPEG files that all resolve to 2023-01-01 12:00:00. -/
def envJpg3 : Env := {
  exifData := fun f =>
    if f = "/in/a.jpg" ∨ f = "/in/b.jpg" ∨ f = "/in/c.jpg" then
      some [("MIMEType", "image/jpeg")]
    else none,
  resolveDate := fun f =>
    if f = "/in/a.jpg" ∨ f = "/in/b.jpg" ∨ f = "/in/c.jpg" then
      some { date := some ⟨2023, 1, 1, 12, 0, 0⟩, guessing := false, subseconds := "" }
    else none }

/-- Oracle: `/in/photo.cr2` is a raw image resolving to 2023-01-01
12:00:00; everything else (in particular its sidecar) is unclassified. -/
def envCr2 : Env := {
  exifData := fun f =>
    if f = "/in/photo.cr2" then some [("MIMEType", "image/x-canon-cr2")] else none,
  resolveDate := fun f =>
    if f = "/in/photo.cr2" then
      some { date := some ⟨2023, 1, 1, 12, 0, 0⟩, guessing := false, subseconds := "" }
    else none }

/-- Oracle: nothing is classified, no date resolves. -/
def envNone : Env := {
  exifData := fun _ => none,
  resolveDate := fun _ => none }

/-- Oracle: `/in/sub/IMG.JPG` is a JPEG whose date resolution is a guess
with no usable datetime value. -/
def envGuess : Env := {
  exifData := fun f =>
    if f = "/in/sub/IMG.JPG" then some [("MIMEType", "image/jpeg")] else none,
  resolveDate := fun f =>
    if f = "/in/sub/IMG.JPG" then
      some { date := none, guessing := true, subseconds := "" }
    else none }

/-- Oracle: `/in/IMG.JPG` is a JPEG resolving to 2023-01-01 12:00:00. -/
def envUpper : Env := {
  exifData := fun f =>
    if f = "/in/IMG.JPG" then some [("MIMEType", "image/jpeg")] else none,
  resolveDate := fun f =>
    if f = "/in/IMG.JPG" then
      some { date := some ⟨2023, 1, 1, 12, 0, 0⟩, guessing := false, subseconds := "" }
    else none }

/-- The printer lines `process_xmp` emits, as a function of the
filesystem it inspects: one `orig => path` line when a sidecar candidate
exists, nothing otherwise. -/
def xmpLines (fs : FS) (file file_name : String) (suffix : Nat)
    (output : String) : List String :=
  let sfx := if suffix > 1 then "-" ++ toString suffix else ""
  if fsIsFile fs (file ++ ".xmp") then
    [(file ++ ".xmp") ++ " => " ++ joinPath [output, file_name ++ sfx ++ ".xmp"]]
  else if fsIsFile fs ((splitext file).1 ++ ".xmp") then
    [((splitext file).1 ++ ".xmp") ++ " => " ++
      joinPath [output, (splitext file_name).1 ++ sfx ++ ".xmp"]]
  else []

/-! ## Derived predicates used by the theorems -/

/-- The date argument `get_file_name_and_path` passes to `get_output_dir`:
the resolved date for a classified file, the Python `False` (here `none`)
otherwise. -/
def dateArg (env : Env) (file : String) : Option DateRec :=
  if classified env file then env.resolveDate file else none

/-- No candidate of the collision chain rooted at `tfp` carries the sidecar
suffix: the base path and every suffixed variant avoid `.xmp`.  Sidecar
transfers write only `.xmp`-suffixed paths, so this separates them from
the chain. -/
def XmpSafe (tfp : String) : Prop :=
  ∀ j, 1 ≤ j → strEndsWith (chainTarget tfp j) ".xmp" = false

/-- The collision chain of `tfp` finds content `c` at position `k`: every
earlier candidate exists with different content, and the `k`-th candidate
holds exactly `c`.  A `process_file` run on a source with content `c` then
records `skip` at position `k` and mutates nothing. -/
def SkipChainAt (fs : FS) (tfp : String) (c : Nat) (k : Nat) : Prop :=
  1 ≤ k ∧ assocLookup fs.files (chainTarget tfp k) = some c ∧
    ∀ j, 1 ≤ j → j < k → ∃ d, assocLookup fs.files (chainTarget tfp j) = some d ∧ d ≠ c

/-- One filesystem extends another by stacking new file bindings - each at
a previously unbound path or at a `.xmp`-suffixed path - and by adding
directories.  Copy-mode runs only produce such extensions. -/
def FilesExtend (fs fs' : FS) : Prop :=
  (∃ adds, fs'.files = adds ++ fs.files ∧
    ∀ e ∈ adds, assocLookup fs.files e.1 = none ∨ strEndsWith e.1 ".xmp" = true) ∧
  (∃ ds, fs'.dirs = ds ++ fs.dirs)

/-! ## Concrete scenarios used by counterexamples and witnesses -/

/-- State for the three-way collision scenario: three JPEGs with distinct
contents 1, 2, 3, empty output. -/
def stJpg3 : RunState := {
  fs := { files := [("/in/a.jpg", 1), ("/in/b.jpg", 2), ("/in/c.jpg", 3)], dirs := [] },
  log := [], printed := [] }

/-- The three-way collision run, in lexical discovery order. -/
def runJpg3 : Except PErr RunState :=
  processAll cfgCopy envJpg3 stJpg3 ["/in/a.jpg", "/in/b.jpg", "/in/c.jpg"] 10

/-- State: `photo.cr2` (content 5) with sidecar `photo.cr2.xmp` (content 9). -/
def stCr2WithExt : RunState := {
  fs := { files := [("/in/photo.cr2", 5), ("/in/photo.cr2.xmp", 9)], dirs := [] },
  log := [], printed := [] }

/-- The sidecar-pairing run for the `<original path>.xmp` sidecar form. -/
def runCr2WithExt : Except PErr RunState :=
  processAll cfgCopy envCr2 stCr2WithExt ["/in/photo.cr2", "/in/photo.cr2.xmp"] 10

/-- Oracle for the second-run counterexample: `/in/a.XMP` is classified as
an image (so its target name is lowercased to `a.xmp`) but has no
resolvable date; nothing else is classified. -/
def envSidecarClash : Env := {
  exifData := fun f =>
    if f = "/in/a.XMP" then some [("MIMEType", "image/jpeg")] else none,
  resolveDate := fun _ => none }

/-- State: `/in/a` (content 1), `/in/a.XMP` (content 2, an image), and the
sidecar `/in/a.xmp` (content 3). -/
def stSidecarClash : RunState := {
  fs := { files := [("/in/a", 1), ("/in/a.XMP", 2), ("/in/a.xmp", 3)], dirs := [] },
  log := [], printed := [] }

/-- First run of the second-run counterexample. -/
def c4run1 : Except PErr RunState :=
  processAll cfgCopy envSidecarClash stSidecarClash ["/in/a", "/in/a.XMP", "/in/a.xmp"] 10

/-- Second run: same input and output, fresh logger. -/
def c4run2 : Except PErr RunState :=
  processAll cfgCopy envSidecarClash
    { finalState c4run1 stSidecarClash with log := [], printed := [] }
    ["/in/a", "/in/a.XMP", "/in/a.xmp"] 10

/-- Two-file collision state for the dry-run comparison. -/
def stJpg2 : RunState := {
  fs := { files := [("/in/a.jpg", 1), ("/in/b.jpg", 2)], dirs := [] },
  log := [], printed := [] }

/-- The real (mutating) two-file collision run. -/
def runJpg2Real : Except PErr RunState :=
  processAll cfgCopy envJpg3 stJpg2 ["/in/a.jpg", "/in/b.jpg"] 10

/-- The same run with simulation enabled. -/
def runJpg2Dry : Except PErr RunState :=
  processAll cfgDry envJpg3 stJpg2 ["/in/a.jpg", "/in/b.jpg"] 10

/-- State: a guessed-date JPEG with an uppercase name under `/in/sub`. -/
def stGuess : RunState := {
  fs := { files := [("/in/sub/IMG.JPG", 4)], dirs := [] },
  log := [], printed := [] }

/-- The unknown-bucket run for a classified file with a guessed date. -/
def runGuess : Except PErr RunState :=
  processAll cfgCopy envGuess stGuess ["/in/sub/IMG.JPG"] 10

/-- State for the preserve-original-names run. -/
def stUpper : RunState := {
  fs := { files := [("/in/IMG.JPG", 4)], dirs := [] },
  log := [], printed := [] }

/-- The preserve-original-names run on a classified uppercase file. -/
def runUpper : Except PErr RunState :=
  processAll cfgOrig envUpper stUpper ["/in/IMG.JPG"] 10

/-- Single-file state, content 7, for the log-keying counterexample. -/
def stSingle7 : RunState := {
  fs := { files := [("/in/a.jpg", 7)], dirs := [] },
  log := [], printed := [] }

/-- A fresh single-file copy with logging disabled. -/
def runSingle7 : Except PErr RunState :=
  processAll cfgCopy envJpg3 stSingle7 ["/in/a.jpg"] 10

/-- State for the vanished-source run: the discovered file is gone. -/
def stGone : RunState := {
  fs := { files := [], dirs := [] }, log := [], printed := [] }


/-- State for the C3 witness: the source and an identical file already at
the computed destination, destination directory present. -/
def stDup : RunState := {
  fs := { files := [("/in/a.jpg", 1),
            ("/out/archive/2023/01/01/20230101_120000.jpg", 1)],
          dirs := ["/out/archive/2023/01/01"] },
  log := [], printed := [] }

/-- State for the suffixed-landing witness: the base destination is taken
by different content, the first suffixed candidate is free. -/
def stC1W : RunState := {
  fs := { files := [("/in/a.jpg", 5),
            ("/out/archive/2023/01/01/20230101_120000.jpg", 1)],
          dirs := ["/out/archive/2023/01/01"] },
  log := [], printed := [] }

/-- State for the suffixed sidecar transfer: only the extension-bearing
sidecar of `/in/photo.cr2` exists. -/
def stC2S : RunState := {
  fs := { files := [("/in/photo.cr2.xmp", 9)], dirs := [] },
  log := [], printed := [] }

/-! ## Theorems -/

/-! ### String and path lemmas -/

/-- Splitting off the extension and re-appending restores the path. -/
theorem splitext_append (p : String) : (splitext p).1 ++ (splitext p).2 = p := by
  unfold splitext
  dsimp only
  split_ifs with h
  · apply String.ext
    simp [String.data_append]
  · apply String.ext
    simp [String.data_append]

/-- A string ends with its appended suffix. -/
theorem strEndsWith_append (s t : String) : strEndsWith (s ++ t) t = true := by
  simp [strEndsWith, List.isSuffixOf_iff_suffix, String.data_append]

/-- Strings disagreeing on the `.xmp` suffix test are distinct. -/
theorem ne_of_xmp_mismatch {a b : String} (ha : strEndsWith a ".xmp" = true)
    (hb : strEndsWith b ".xmp" = false) : a ≠ b := by
  intro h
  rw [h, hb] at ha
  cases ha

/-- The first chain candidate is the computed target path itself. -/
theorem chainTarget_one (tfp : String) : chainTarget tfp 1 = tfp := by
  simp [chainTarget]

/-- The later chain candidates carry the dash-suffix between stem and
extension. -/
theorem chainTarget_of_two_le {tfp : String} {j : Nat} (h : 2 ≤ j) :
    chainTarget tfp j =
      (splitext tfp).1 ++ "-" ++ toString j ++ (splitext tfp).2 := by
  have : ¬ j ≤ 1 := by omega
  simp [chainTarget, this]

/-- A suffixed chain candidate is never the base target path (it is two
characters longer at least). -/
theorem chainTarget_ne_base {tfp : String} {j : Nat} (h : 2 ≤ j) :
    chainTarget tfp j ≠ tfp := by
  rw [chainTarget_of_two_le h]
  intro heq
  have hlen : ((splitext tfp).1 ++ "-" ++ toString j ++ (splitext tfp).2).data.length
      = tfp.data.length := by rw [heq]
  have hsplit : ((splitext tfp).1 ++ (splitext tfp).2).data.length = tfp.data.length := by
    rw [splitext_append]
  simp only [String.data_append, List.length_append, List.length_singleton]
    at hlen hsplit
  omega

/-- Distinct suffix numbers with distinct decimal forms give distinct chain
candidates. -/
theorem chainTarget_ne_of_repr_ne {tfp : String} {i j : Nat} (hi : 2 ≤ i)
    (hj : 2 ≤ j) (hne : toString i ≠ toString j) :
    chainTarget tfp i ≠ chainTarget tfp j := by
  rw [chainTarget_of_two_le hi, chainTarget_of_two_le hj]
  intro heq
  apply hne
  apply String.ext
  have h2 := congrArg String.data heq
  simp only [String.data_append, List.append_assoc] at h2
  have h3 := List.append_cancel_left h2
  have h4 := List.append_cancel_left h3
  exact List.append_cancel_right h4

/-- A `takeWhile` scan that accepts all of the first block passes through
into the second. -/
theorem takeWhile_append_all {p : Char → Bool} {l₁ l₂ : List Char}
    (h : ∀ a ∈ l₁, p a = true) :
    (l₁ ++ l₂).takeWhile p = l₁ ++ l₂.takeWhile p := by
  induction l₁ with
  | nil => simp
  | cons a l ih =>
    simp [List.takeWhile_cons, h a (by simp), ih (fun b hb => h b (by simp [hb]))]

/-- A suffix free of separators survives into the basename. -/
theorem basename_endsWith {f t : String} (h : strEndsWith f t = true)
    (hsep : ∀ c ∈ t.data, (c != sepC) = true) :
    strEndsWith (basename f) t = true := by
  simp only [strEndsWith, List.isSuffixOf_iff_suffix] at h ⊢
  obtain ⟨pre, hpre⟩ := h
  simp only [basename, hpre.symm]
  rw [List.reverse_append, takeWhile_append_all (by
    intro a ha
    exact hsep a (by simpa using ha))]
  rw [List.reverse_append, List.reverse_reverse]
  exact ⟨_, rfl⟩

/-- Operating-system artifact names are never sidecars. -/
theorem ignored_not_xmp {f : String}
    (hig : ignored_files.any (fun n => n == basename f) = true) :
    strEndsWith f ".xmp" = false := by
  by_contra hx
  have hx' : strEndsWith f ".xmp" = true := by
    cases h : strEndsWith f ".xmp" with
    | true => rfl
    | false => exact absurd h hx
  have hb := basename_endsWith hx' (by decide)
  simp only [ignored_files, List.any_cons, List.any_nil, Bool.or_eq_true,
    beq_iff_eq] at hig
  rcases hig with h | h | h | h
  · rw [← h] at hb; exact absurd hb (by decide)
  · rw [← h] at hb; exact absurd hb (by decide)
  · rw [← h] at hb; exact absurd hb (by decide)
  · cases h

/-- Valid code points round-trip through `Char.ofNat`. -/
theorem char_toNat_ofNat {n : Nat} (h : n.isValidChar) :
    (Char.ofNat n).toNat = n := by
  unfold Char.ofNat
  rw [dif_pos h]
  rfl

/-- ASCII lowering is idempotent on characters. -/
theorem toLower_toLower (c : Char) : Char.toLower (Char.toLower c) = Char.toLower c := by
  unfold Char.toLower
  dsimp only
  split_ifs with h1 h2
  · exfalso
    have hv : Nat.isValidChar (c.toNat + 32) := by
      left
      omega
    rw [char_toNat_ofNat hv] at h2
    omega
  · rfl
  · rfl

/-- ASCII lowering is idempotent on strings. -/
theorem strLower_strLower (s : String) : strLower (strLower s) = strLower s := by
  apply String.ext
  simp [strLower, Function.comp, toLower_toLower]

/-- Lookup distributes over list append, preferring the left bindings. -/
theorem assocLookup_append (l₁ l₂ : List (String × Nat)) (q : String) :
    assocLookup (l₁ ++ l₂) q =
      match assocLookup l₁ q with
      | some v => some v
      | none => assocLookup l₂ q := by
  induction l₁ with
  | nil => simp [assocLookup]
  | cons e rest ih =>
    obtain ⟨k, v⟩ := e
    by_cases hk : k = q
    · simp [assocLookup, hk]
    · simp [assocLookup, hk, ih]

/-- A list none of whose keys is `q` never resolves `q`. -/
theorem assocLookup_eq_none {adds : List (String × Nat)} {q : String}
    (h : ∀ e ∈ adds, e.1 ≠ q) : assocLookup adds q = none := by
  induction adds with
  | nil => rfl
  | cons e rest ih =>
    obtain ⟨k, v⟩ := e
    simp only [assocLookup, if_neg (h (k, v) (by simp))]
    exact ih (fun e he => h e (by simp [he]))

/-- A bound, non-sidecar path keeps its binding across an extension. -/
theorem filesExtend_lookup {fs fs' : FS} {q : String} {c : Nat}
    (h : FilesExtend fs fs') (hq : assocLookup fs.files q = some c)
    (hx : strEndsWith q ".xmp" = false) : assocLookup fs'.files q = some c := by
  obtain ⟨⟨adds, hadds, hfresh⟩, -⟩ := h
  rw [hadds, assocLookup_append]
  have hnone : assocLookup adds q = none := by
    apply assocLookup_eq_none
    intro e he
    rcases hfresh e he with hfr | hxm
    · intro hkq; rw [hkq, hq] at hfr; cases hfr
    · exact ne_of_xmp_mismatch hxm hx
  rw [hnone, hq]

/-- Directories persist across an extension. -/
theorem filesExtend_isDir {fs fs' : FS} {p : String} (h : FilesExtend fs fs')
    (hd : fsIsDir fs p = true) : fsIsDir fs' p = true := by
  obtain ⟨-, ds, hds⟩ := h
  simp only [fsIsDir, hds, List.any_append, Bool.or_eq_true]
  right
  exact hd

/-- Extension is reflexive. -/
theorem filesExtend_refl (fs : FS) : FilesExtend fs fs :=
  ⟨⟨[], by simp, by simp⟩, ⟨[], by simp⟩⟩

/-- Extension is transitive. -/
theorem filesExtend_trans {fs₁ fs₂ fs₃ : FS} (h12 : FilesExtend fs₁ fs₂)
    (h23 : FilesExtend fs₂ fs₃) : FilesExtend fs₁ fs₃ := by
  obtain ⟨⟨a12, ha12, hf12⟩, d12, hd12⟩ := h12
  obtain ⟨⟨a23, ha23, hf23⟩, d23, hd23⟩ := h23
  refine ⟨⟨a23 ++ a12, by rw [ha23, ha12, List.append_assoc], ?_⟩,
    ⟨d23 ++ d12, by rw [hd23, hd12, List.append_assoc]⟩⟩
  intro e he
  rcases List.mem_append.mp he with h | h
  · rcases hf23 e h with hfr | hxm
    · left
      rw [ha12, assocLookup_append] at hfr
      revert hfr
      cases assocLookup a12 e.1 <;> simp
    · right; exact hxm
  · exact hf12 e h

/-- A skip chain survives any copy-mode extension when its candidates are
not sidecar-shaped. -/
theorem skipChainAt_extend {fs fs' : FS} {tfp : String} {c k : Nat}
    (h : FilesExtend fs fs') (hx : XmpSafe tfp)
    (hc : SkipChainAt fs tfp c k) : SkipChainAt fs' tfp c k := by
  obtain ⟨hk, hhit, hmiss⟩ := hc
  refine ⟨hk, filesExtend_lookup h hhit (hx k hk), ?_⟩
  intro j h1 hjk
  obtain ⟨d, hd, hdc⟩ := hmiss j h1 hjk
  exact ⟨d, filesExtend_lookup h hd (hx j h1), hdc⟩

/-! ### Engine characterization lemmas -/

/-- Joining two segments inserts one separator. -/
theorem joinPath_pair (a b : String) : joinPath [a, b] = a ++ "/" ++ b := rfl

/-- A join whose last segment is `.xmp`-suffixed is `.xmp`-suffixed. -/
theorem joinPath_pair_endsWith_xmp (a x : String) :
    strEndsWith (joinPath [a, x ++ ".xmp"]) ".xmp" = true := by
  rw [joinPath_pair, ← String.append_assoc]
  exact strEndsWith_append _ _

/-- `get_output_dir` in components. -/
theorem get_output_dir_eq (cfg : Config) (st : RunState) (date : Option DateRec)
    (file : String) :
    get_output_dir cfg st date file =
      (if fsIsDir st.fs (output_dir_path cfg date file) = false ∧ cfg.dry_run = false
         then { st with fs := fsMkdirs st.fs (output_dir_path cfg date file) }
         else st,
       output_dir_path cfg date file) := by
  simp only [get_output_dir]
  split_ifs <;> rfl

/-- The state returned by `get_output_dir` keeps files, log and printer
output, and only stacks directories. -/
theorem get_output_dir_fst (cfg : Config) (st : RunState) (date : Option DateRec)
    (file : String) :
    (get_output_dir cfg st date file).1.fs.files = st.fs.files ∧
    (get_output_dir cfg st date file).1.log = st.log ∧
    (get_output_dir cfg st date file).1.printed = st.printed ∧
    FilesExtend st.fs (get_output_dir cfg st date file).1.fs := by
  rw [get_output_dir_eq]
  split_ifs with h
  · exact ⟨rfl, rfl, rfl, ⟨⟨[], by simp [fsMkdirs], by simp⟩,
      ⟨[output_dir_path cfg date file], rfl⟩⟩⟩
  · exact ⟨rfl, rfl, rfl, filesExtend_refl _⟩

/-- Outside dry runs, the computed output directory exists afterwards. -/
theorem get_output_dir_isDir (cfg : Config) (st : RunState) (date : Option DateRec)
    (file : String) (hdry : cfg.dry_run = false) :
    fsIsDir (get_output_dir cfg st date file).1.fs (output_dir_path cfg date file)
      = true := by
  rw [get_output_dir_eq]
  split_ifs with h
  · simp [fsIsDir, fsMkdirs]
  · cases h2 : fsIsDir st.fs (output_dir_path cfg date file) with
    | false => exact absurd ⟨h2, hdry⟩ h
    | true => rfl

/-- When the directory already exists, `get_output_dir` is the identity on
the state. -/
theorem get_output_dir_fst_of_isDir {cfg : Config} {st : RunState}
    {date : Option DateRec} {file : String}
    (h : fsIsDir st.fs (output_dir_path cfg date file) = true) :
    (get_output_dir cfg st date file).1 = st := by
  rw [get_output_dir_eq]
  simp [h]

/-- `get_file_name_and_path` in terms of its pure components. -/
theorem gfnap_eq (cfg : Config) (env : Env) (st : RunState) (file : String) :
    get_file_name_and_path cfg env st file =
      ((get_output_dir cfg st (dateArg env file) file).1,
        computedOutDir cfg env file, computedName cfg env file,
        computedTargetPath cfg env file) := by
  by_cases h : classified env file = true
  · simp only [get_file_name_and_path, computedOutDir, computedName,
      computedTargetPath, dateArg, h, if_true, get_output_dir_eq]
  · have h' : classified env file = false := by
      cases hc : classified env file with
      | true => exact absurd hc h
      | false => rfl
    simp only [get_file_name_and_path, computedOutDir, computedName,
      computedTargetPath, dateArg, h', Bool.false_eq_true, if_false,
      get_output_dir_eq]

/-- `checksum` succeeds exactly on the stored content. -/
theorem checksum_ok {fs : FS} {file : String} {c : Nat}
    (h : assocLookup fs.files file = some c) : checksum fs file = Except.ok c := by
  simp [checksum, h]

/-- Loop step, duplicate found: the candidate target holds the source's
content, so the iteration records a `skip` keyed by the fingerprint and
stops.  (`hchk` captures the loop invariant on the Python `checksum`
variable: with logging enabled it already holds the source fingerprint.) -/
theorem processLoop_skip_eq (cfg : Config) (env : Env)
    {file output tfn tfp : String} {chk : Option Nat} {suffix : Nat}
    {target : String} {st : RunState} {fuel : Nat} {c : Nat}
    (hsrc : assocLookup st.fs.files file = some c)
    (htgt : assocLookup st.fs.files target = some c)
    (hchk : cfg.output_log = false ∨ chk = some c) :
    processLoop cfg env file output tfn tfp chk suffix target st (fuel + 1) =
      Except.ok (stPrint (stAddEntry st (some c) file target Action.skip)
        (" => skipped, duplicated file " ++ target)) := by
  have ht : fsIsFile st.fs target = true := by simp [fsIsFile, htgt]
  rcases hchk with h | h
  · simp [processLoop, ht, h, checksum, hsrc, htgt, Except.map]
  · by_cases hol : cfg.output_log = false
    · simp [processLoop, ht, hol, checksum, hsrc, htgt, Except.map]
    · simp [processLoop, ht, hol, h, checksum, htgt, Except.map]

/-- Loop step, name collision with different content: the iteration moves
to the next suffixed candidate, with the source fingerprint now computed
(in every logging mode the Python `checksum` variable holds it from here
on). -/
theorem processLoop_collide_eq (cfg : Config) (env : Env)
    {file output tfn tfp : String} {chk : Option Nat} {suffix : Nat}
    {target : String} {st : RunState} {fuel : Nat} {c d : Nat}
    (hsrc : assocLookup st.fs.files file = some c)
    (htgt : assocLookup st.fs.files target = some d)
    (hne : c ≠ d)
    (hchk : cfg.output_log = false ∨ chk = some c) :
    processLoop cfg env file output tfn tfp chk suffix target st (fuel + 1) =
      processLoop cfg env file output tfn tfp (some c) (suffix + 1)
        (chainTarget tfp (suffix + 1)) st fuel := by
  have ht : fsIsFile st.fs target = true := by simp [fsIsFile, htgt]
  have hcd : ¬ (some c = some d) := by simp [hne]
  rcases hchk with h | h
  · simp [processLoop, ht, h, checksum, hsrc, htgt, hcd, Except.map]
  · by_cases hol : cfg.output_log = false
    · simp [processLoop, ht, hol, checksum, hsrc, htgt, hcd, Except.map]
    · simp [processLoop, ht, hol, h, checksum, htgt, hcd, Except.map]

/-- Loop step, free candidate under the copy strategy: the file is copied
there, the action logged under the current `checksum` variable, and the
tail (`print` + sidecar) runs. -/
theorem processLoop_fresh_copy_eq (cfg : Config) (env : Env)
    {file output tfn tfp : String} {chk : Option Nat} {suffix : Nat}
    {target : String} {st : RunState} {fuel : Nat} {c : Nat}
    (hfresh : assocLookup st.fs.files target = none)
    (hmove : cfg.move = false) (hlink : cfg.link = false)
    (hdry : cfg.dry_run = false)
    (hsrc : assocLookup st.fs.files file = some c) :
    processLoop cfg env file output tfn tfp chk suffix target st (fuel + 1) =
      processFinish cfg
        (stAddEntry { st with fs := fsWrite st.fs target c } chk file target
          Action.copy)
        file tfn suffix output target := by
  have ht : fsIsFile st.fs target = false := by simp [fsIsFile, hfresh]
  simp [processLoop, ht, hmove, hlink, hdry, hsrc, stAddEntry]

/-- Loop step, free candidate in a dry run: nothing is transferred or
logged; the tail still prints and inspects the sidecar. -/
theorem processLoop_fresh_dry_eq (cfg : Config) (env : Env)
    {file output tfn tfp : String} {chk : Option Nat} {suffix : Nat}
    {target : String} {st : RunState} {fuel : Nat}
    (hfresh : assocLookup st.fs.files target = none)
    (hdry : cfg.dry_run = true) :
    processLoop cfg env file output tfn tfp chk suffix target st (fuel + 1) =
      processFinish cfg st file tfn suffix output target := by
  have ht : fsIsFile st.fs target = false := by simp [fsIsFile, hfresh]
  simp [processLoop, ht, hdry]

/-- Loop step, free candidate but vanished source, move or copy strategy:
the `FileNotFoundError` is caught, the file reported skipped, the run goes
on. -/
theorem processLoop_fresh_missing_eq (cfg : Config) (env : Env)
    {file output tfn tfp : String} {chk : Option Nat} {suffix : Nat}
    {target : String} {st : RunState} {fuel : Nat}
    (hfresh : assocLookup st.fs.files target = none)
    (hmiss : assocLookup st.fs.files file = none)
    (hdry : cfg.dry_run = false)
    (hbranch : cfg.move = true ∨ cfg.link = false) :
    processLoop cfg env file output tfn tfp chk suffix target st (fuel + 1) =
      Except.ok (stPrint st " => skipped, no such file or directory") := by
  have ht : fsIsFile st.fs target = false := by simp [fsIsFile, hfresh]
  rcases hbranch with h | h
  · simp [processLoop, ht, h, hdry, hmiss]
  · by_cases hm : cfg.move = true
    · simp [processLoop, ht, hm, hdry, hmiss]
    · simp [processLoop, ht, hm, h, hdry, hmiss]

/-- Loop step, free candidate but vanished source, link strategy: `os.link`
raises an uncaught `FileNotFoundError`. -/
theorem processLoop_fresh_link_missing_eq (cfg : Config) (env : Env)
    {file output tfn tfp : String} {chk : Option Nat} {suffix : Nat}
    {target : String} {st : RunState} {fuel : Nat}
    (hfresh : assocLookup st.fs.files target = none)
    (hmiss : assocLookup st.fs.files file = none)
    (hdry : cfg.dry_run = false)
    (hmove : cfg.move = false) (hlink : cfg.link = true) :
    processLoop cfg env file output tfn tfp chk suffix target st (fuel + 1) =
      Except.error (PErr.fileNotFound file) := by
  have ht : fsIsFile st.fs target = false := by simp [fsIsFile, hfresh]
  simp [processLoop, ht, hmove, hlink, hdry, hmiss]

/-- No sidecar next to the source: `process_xmp` does nothing. -/
theorem process_xmp_none_eq (cfg : Config) {st : RunState}
    {file file_name : String} {suffix : Nat} {output : String}
    (h1 : assocLookup st.fs.files (file ++ ".xmp") = none)
    (h2 : assocLookup st.fs.files ((splitext file).1 ++ ".xmp") = none) :
    process_xmp cfg st file file_name suffix output = Except.ok st := by
  simp [process_xmp, fsIsFile, h1, h2]

/-- A sidecar transfer under the copy strategy: print, then write the
sidecar's content at the joined destination. -/
theorem xmpTransfer_copy_eq (cfg : Config) {st : RunState}
    {orig target output : String} {s : Nat}
    (hmove : cfg.move = false) (hlink : cfg.link = false)
    (hdry : cfg.dry_run = false)
    (horig : assocLookup st.fs.files orig = some s) :
    xmpTransfer cfg st orig target output =
      Except.ok { stPrint st (orig ++ " => " ++ joinPath [output, target]) with
        fs := fsWrite st.fs (joinPath [output, target]) s } := by
  simp [xmpTransfer, hmove, hlink, hdry, horig, stPrint]

/-- A sidecar transfer in a dry run only prints. -/
theorem xmpTransfer_dry_eq (cfg : Config) {st : RunState}
    {orig target output : String} (hdry : cfg.dry_run = true) :
    xmpTransfer cfg st orig target output =
      Except.ok (stPrint st (orig ++ " => " ++ joinPath [output, target])) := by
  simp [xmpTransfer, hdry]

/-- `process_xmp`, copy strategy, `<path>.xmp` sidecar form present: the
sidecar is copied to `<file_name><-suffix>.xmp` in the output directory. -/
theorem process_xmp_with_eq (cfg : Config) {st : RunState}
    {file file_name : String} {suffix : Nat} {output : String} {s : Nat}
    (hmove : cfg.move = false) (hlink : cfg.link = false)
    (hdry : cfg.dry_run = false)
    (h1 : assocLookup st.fs.files (file ++ ".xmp") = some s) :
    process_xmp cfg st file file_name suffix output =
      Except.ok { stPrint st ((file ++ ".xmp") ++ " => " ++
          joinPath [output, file_name ++
            (if suffix > 1 then "-" ++ toString suffix else "") ++ ".xmp"]) with
        fs := fsWrite st.fs
          (joinPath [output, file_name ++
            (if suffix > 1 then "-" ++ toString suffix else "") ++ ".xmp"]) s } := by
  have hf : fsIsFile st.fs (file ++ ".xmp") = true := by simp [fsIsFile, h1]
  simp only [process_xmp, hf, if_true]
  exact xmpTransfer_copy_eq cfg hmove hlink hdry h1

/-- `process_xmp`, copy strategy, only the extensionless sidecar form
present: the sidecar is copied to
`<file_name without extension><-suffix>.xmp`. -/
theorem process_xmp_without_eq (cfg : Config) {st : RunState}
    {file file_name : String} {suffix : Nat} {output : String} {s : Nat}
    (hmove : cfg.move = false) (hlink : cfg.link = false)
    (hdry : cfg.dry_run = false)
    (h1 : assocLookup st.fs.files (file ++ ".xmp") = none)
    (h2 : assocLookup st.fs.files ((splitext file).1 ++ ".xmp") = some s) :
    process_xmp cfg st file file_name suffix output =
      Except.ok { stPrint st (((splitext file).1 ++ ".xmp") ++ " => " ++
          joinPath [output, (splitext file_name).1 ++
            (if suffix > 1 then "-" ++ toString suffix else "") ++ ".xmp"]) with
        fs := fsWrite st.fs
          (joinPath [output, (splitext file_name).1 ++
            (if suffix > 1 then "-" ++ toString suffix else "") ++ ".xmp"]) s } := by
  have hf1 : fsIsFile st.fs (file ++ ".xmp") = false := by simp [fsIsFile, h1]
  have hf2 : fsIsFile st.fs ((splitext file).1 ++ ".xmp") = true := by
    simp [fsIsFile, h2]
  simp only [process_xmp, hf1, hf2, Bool.false_eq_true, if_false, if_true]
  exact xmpTransfer_copy_eq cfg hmove hlink hdry h2

/-- `process_xmp` under move-free, link-free configurations always
succeeds, never logs, never makes directories, and extends the filesystem
by at most one `.xmp`-suffixed binding. -/
theorem process_xmp_copy_outcome (cfg : Config) (st : RunState)
    (file file_name : String) (suffix : Nat) (output : String)
    (hmove : cfg.move = false) (hlink : cfg.link = false) :
    ∃ st', process_xmp cfg st file file_name suffix output = Except.ok st' ∧
      FilesExtend st.fs st'.fs ∧ st'.log = st.log ∧
      st'.fs.dirs = st.fs.dirs ∧ ∃ tail, st'.printed = st.printed ++ tail := by
  cases h1 : assocLookup st.fs.files (file ++ ".xmp") with
  | some s =>
    have hf : fsIsFile st.fs (file ++ ".xmp") = true := by simp [fsIsFile, h1]
    by_cases hdry : cfg.dry_run = true
    · simp only [process_xmp, hf, if_true]
      rw [xmpTransfer_dry_eq cfg hdry]
      exact ⟨_, rfl, filesExtend_refl _, rfl, rfl, ⟨_, rfl⟩⟩
    · have hdry' : cfg.dry_run = false := by
        cases h : cfg.dry_run with
        | true => exact absurd h hdry
        | false => rfl
      rw [process_xmp_with_eq cfg hmove hlink hdry' h1]
      refine ⟨_, rfl, ⟨⟨[(joinPath [output, file_name ++
          (if suffix > 1 then "-" ++ toString suffix else "") ++ ".xmp"], s)],
          rfl, ?_⟩, ⟨[], rfl⟩⟩, rfl, rfl, ⟨_, rfl⟩⟩
      intro e he
      right
      simp only [List.mem_singleton] at he
      rw [he]
      exact joinPath_pair_endsWith_xmp _ _
  | none =>
    cases h2 : assocLookup st.fs.files ((splitext file).1 ++ ".xmp") with
    | some s =>
      have hf1 : fsIsFile st.fs (file ++ ".xmp") = false := by simp [fsIsFile, h1]
      have hf2 : fsIsFile st.fs ((splitext file).1 ++ ".xmp") = true := by
        simp [fsIsFile, h2]
      by_cases hdry : cfg.dry_run = true
      · simp only [process_xmp, hf1, hf2, Bool.false_eq_true, if_false, if_true]
        rw [xmpTransfer_dry_eq cfg hdry]
        exact ⟨_, rfl, filesExtend_refl _, rfl, rfl, ⟨_, rfl⟩⟩
      · have hdry' : cfg.dry_run = false := by
          cases h : cfg.dry_run with
          | true => exact absurd h hdry
          | false => rfl
        rw [process_xmp_without_eq cfg hmove hlink hdry' h1 h2]
        refine ⟨_, rfl, ⟨⟨[(joinPath [output, (splitext file_name).1 ++
            (if suffix > 1 then "-" ++ toString suffix else "") ++ ".xmp"], s)],
            rfl, ?_⟩, ⟨[], rfl⟩⟩, rfl, rfl, ⟨_, rfl⟩⟩
        intro e he
        right
        simp only [List.mem_singleton] at he
        rw [he]
        exact joinPath_pair_endsWith_xmp _ _
    | none =>
      rw [process_xmp_none_eq cfg h1 h2]
      exact ⟨st, rfl, filesExtend_refl _, rfl, rfl, ⟨[], by simp⟩⟩

/-- Writing a path makes it resolve to the written content. -/
theorem assocLookup_write_self (fs : FS) (p : String) (c : Nat) :
    assocLookup (fsWrite fs p c).files p = some c := by
  simp [fsWrite, assocLookup]

/-- Writing one path leaves the others unchanged. -/
theorem assocLookup_write_other (fs : FS) (p : String) (c : Nat) {q : String}
    (h : p ≠ q) : assocLookup (fsWrite fs p c).files q = assocLookup fs.files q := by
  simp [fsWrite, assocLookup, h]

/-- The common transfer tail under move-free, link-free configurations:
succeeds, prints the target line, logs nothing further, extends the
filesystem by at most one sidecar binding. -/
theorem processFinish_copy_outcome (cfg : Config) (st : RunState)
    (file file_name : String) (suffix : Nat) (output target : String)
    (hmove : cfg.move = false) (hlink : cfg.link = false) :
    ∃ st', processFinish cfg st file file_name suffix output target = Except.ok st' ∧
      FilesExtend st.fs st'.fs ∧ st'.log = st.log ∧
      st'.fs.dirs = st.fs.dirs ∧
      ∃ tail, st'.printed = st.printed ++ (" => " ++ target) :: tail := by
  unfold processFinish
  obtain ⟨st', hok, hext, hlog, hdirs, tail, hpr⟩ :=
    process_xmp_copy_outcome cfg (stPrint st (" => " ++ target)) file file_name
      suffix output hmove hlink
  refine ⟨st', hok, hext, hlog, hdirs, tail, ?_⟩
  rw [hpr]
  simp [stPrint]

/-- A full copy-mode run of the collision loop started anywhere on the
chain: it succeeds, extends the filesystem only as `FilesExtend` allows,
adds no directories, appends to the log, and leaves a skip chain behind at
the position it acted on. -/
theorem processLoop_copy_run (cfg : Config) (env : Env)
    (file output tfn tfp : String) (st : RunState) (c : Nat)
    (hmove : cfg.move = false) (hlink : cfg.link = false)
    (hdry : cfg.dry_run = false) (hxs : XmpSafe tfp)
    (hsrc : assocLookup st.fs.files file = some c) :
    ∀ fuel suffix chk st', 1 ≤ suffix →
      (cfg.output_log = false ∨ chk = some c) →
      (∀ j, 1 ≤ j → j < suffix →
        ∃ d, assocLookup st.fs.files (chainTarget tfp j) = some d ∧ d ≠ c) →
      processLoop cfg env file output tfn tfp chk suffix (chainTarget tfp suffix)
        st fuel = Except.ok st' →
      FilesExtend st.fs st'.fs ∧
      (∃ k, suffix ≤ k ∧ k < suffix + fuel ∧ SkipChainAt st'.fs tfp c k) ∧
      st'.fs.dirs = st.fs.dirs ∧ (∃ tail, st'.log = st.log ++ tail) := by
  intro fuel
  induction fuel with
  | zero =>
    intro suffix chk st' h1 hchk hprev hrun
    cases hrun
  | succ fuel ih =>
    intro suffix chk st' h1 hchk hprev hrun
    cases htv : assocLookup st.fs.files (chainTarget tfp suffix) with
    | some d =>
      by_cases hdc : d = c
      · subst hdc
        rw [processLoop_skip_eq cfg env hsrc htv hchk] at hrun
        obtain rfl := (Except.ok.inj hrun).symm
        refine ⟨filesExtend_refl _, ⟨suffix, le_refl _, by omega,
          ⟨h1, htv, hprev⟩⟩, rfl, ⟨_, rfl⟩⟩
      · have hne : c ≠ d := fun h => hdc (h.symm)
        rw [processLoop_collide_eq cfg env hsrc htv hne hchk] at hrun
        obtain ⟨hext, ⟨k, hk1, hk2, hchain⟩, hdirs, htl⟩ :=
          ih (suffix + 1) (some c) st' (by omega) (Or.inr rfl)
            (by
              intro j hj1 hj2
              by_cases hjs : j = suffix
              · exact ⟨d, by rw [hjs]; exact htv, fun h => hdc (h.symm ▸ rfl)⟩
              · exact hprev j hj1 (by omega))
            hrun
        exact ⟨hext, ⟨k, by omega, by omega, hchain⟩, hdirs, htl⟩
    | none =>
      rw [processLoop_fresh_copy_eq cfg env htv hmove hlink hdry hsrc] at hrun
      obtain ⟨st'', hok, hext, hlog, hdirs, tail, hpr⟩ :=
        processFinish_copy_outcome cfg
          (stAddEntry { st with fs := fsWrite st.fs (chainTarget tfp suffix) c }
            chk file (chainTarget tfp suffix) Action.copy)
          file tfn suffix output (chainTarget tfp suffix) hmove hlink
      rw [hok] at hrun
      obtain rfl := Except.ok.inj hrun
      simp only [stAddEntry, add_entry] at hext hlog hdirs
      have hwext : FilesExtend st.fs
          (fsWrite st.fs (chainTarget tfp suffix) c) :=
        ⟨⟨[(chainTarget tfp suffix, c)], rfl, by
          intro e he
          simp only [List.mem_singleton] at he
          rw [he]
          exact Or.inl htv⟩, ⟨[], rfl⟩⟩
      have hext' : FilesExtend st.fs st''.fs := filesExtend_trans hwext hext
      refine ⟨hext', ⟨suffix, le_refl _, by omega, h1, ?_, ?_⟩, ?_, ?_⟩
      · exact filesExtend_lookup hext (assocLookup_write_self st.fs _ c)
          (hxs suffix h1)
      · intro j hj1 hj2
        obtain ⟨d, hd, hdc⟩ := hprev j hj1 hj2
        have hne : chainTarget tfp suffix ≠ chainTarget tfp j := by
          intro h
          rw [h, hd] at htv
          cases htv
        refine ⟨d, ?_, hdc⟩
        exact filesExtend_lookup hext
          (by rw [assocLookup_write_other st.fs _ c hne]; exact hd) (hxs j hj1)
      · rw [hdirs]; rfl
      · exact ⟨_, hlog⟩

/-- Running the collision loop against an established skip chain records
exactly one `skip` at the chain's hit position and mutates nothing. -/
theorem processLoop_skipchain_run (cfg : Config) (env : Env)
    (file output tfn tfp : String) (st : RunState) (c k : Nat)
    (hsrc : assocLookup st.fs.files file = some c)
    (hchain : SkipChainAt st.fs tfp c k) :
    ∀ fuel suffix chk, 1 ≤ suffix → suffix ≤ k → k - suffix < fuel →
      (cfg.output_log = false ∨ chk = some c) →
      processLoop cfg env file output tfn tfp chk suffix (chainTarget tfp suffix)
        st fuel =
        Except.ok (stPrint (stAddEntry st (some c) file (chainTarget tfp k)
          Action.skip) (" => skipped, duplicated file " ++ chainTarget tfp k)) := by
  intro fuel
  induction fuel with
  | zero =>
    intro suffix chk h1 h2 h3 hchk
    omega
  | succ fuel ih =>
    intro suffix chk h1 h2 h3 hchk
    by_cases hsk : suffix = k
    · subst hsk
      exact processLoop_skip_eq cfg env hsrc hchain.2.1 hchk
    · have hlt : suffix < k := by omega
      obtain ⟨d, hd, hdc⟩ := hchain.2.2 suffix h1 hlt
      rw [processLoop_collide_eq cfg env hsrc hd (Ne.symm hdc) hchk]
      exact ih (suffix + 1) (some c) (by omega) (by omega) (by omega) (Or.inr rfl)

/-- The pure output directory agrees with the date argument plumbing. -/
theorem computedOutDir_eq (cfg : Config) (env : Env) (file : String) :
    computedOutDir cfg env file = output_dir_path cfg (dateArg env file) file := by
  unfold computedOutDir dateArg
  split_ifs <;> rfl

/-- Sidecar files are returned unprocessed. -/
theorem process_file_xmp_eq (cfg : Config) (env : Env) (st : RunState)
    {file : String} (fuel : Nat) (hx : strEndsWith file ".xmp" = true) :
    process_file cfg env st file fuel = Except.ok st := by
  simp [process_file, hx]

/-- A full copy-mode `process_file` run: extends the filesystem, leaves a
skip chain for its own source content at the computed target path, ensures
the computed output directory, and appends to the log. -/
theorem process_file_copy_run (cfg : Config) (env : Env) {st st' : RunState}
    {file : String} {fuel : Nat} {c : Nat}
    (hmove : cfg.move = false) (hlink : cfg.link = false)
    (hdry : cfg.dry_run = false)
    (hxf : strEndsWith file ".xmp" = false)
    (hxs : XmpSafe (computedTargetPath cfg env file))
    (hsrc : assocLookup st.fs.files file = some c)
    (hrun : process_file cfg env st file fuel = Except.ok st') :
    FilesExtend st.fs st'.fs ∧
    (∃ k, 1 ≤ k ∧ k ≤ fuel ∧
      SkipChainAt st'.fs (computedTargetPath cfg env file) c k) ∧
    fsIsDir st'.fs (computedOutDir cfg env file) = true ∧
    (∃ tail, st'.log = st.log ++ tail) := by
  simp only [process_file, hxf, Bool.false_eq_true, if_false, gfnap_eq] at hrun
  have hgd := get_output_dir_fst cfg (stPrint st file) (dateArg env file) file
  have hfs1 : (get_output_dir cfg (stPrint st file) (dateArg env file) file).1.fs.files
      = st.fs.files := hgd.1
  have hlog1 : (get_output_dir cfg (stPrint st file) (dateArg env file) file).1.log
      = st.log := hgd.2.1
  have hext1 : FilesExtend st.fs
      (get_output_dir cfg (stPrint st file) (dateArg env file) file).1.fs :=
    hgd.2.2.2
  have hdir1 : fsIsDir
      (get_output_dir cfg (stPrint st file) (dateArg env file) file).1.fs
      (output_dir_path cfg (dateArg env file) file) = true :=
    get_output_dir_isDir cfg (stPrint st file) (dateArg env file) file hdry
  have hsrc1 : assocLookup
      (get_output_dir cfg (stPrint st file) (dateArg env file) file).1.fs.files
      file = some c := by rw [hfs1]; exact hsrc
  have main : ∀ chk, (cfg.output_log = false ∨ chk = some c) →
      processLoop cfg env file (computedOutDir cfg env file)
        (computedName cfg env file) (computedTargetPath cfg env file) chk 1
        (computedTargetPath cfg env file)
        (get_output_dir cfg (stPrint st file) (dateArg env file) file).1 fuel
        = Except.ok st' →
      FilesExtend st.fs st'.fs ∧
      (∃ k, 1 ≤ k ∧ k ≤ fuel ∧
        SkipChainAt st'.fs (computedTargetPath cfg env file) c k) ∧
      fsIsDir st'.fs (computedOutDir cfg env file) = true ∧
      (∃ tail, st'.log = st.log ++ tail) := by
    intro chk hchk hloop
    rw [← chainTarget_one (computedTargetPath cfg env file)] at hloop
    obtain ⟨hext2, ⟨k, hk1, hk2, hchain⟩, hdirs2, tail, hlog2⟩ :=
      processLoop_copy_run cfg env file (computedOutDir cfg env file)
        (computedName cfg env file) (computedTargetPath cfg env file)
        _ c hmove hlink hdry hxs hsrc1 fuel 1 chk st' (le_refl 1) hchk
        (by intro j hj1 hj2; omega) hloop
    refine ⟨filesExtend_trans hext1 hext2, ⟨k, hk1, by omega, hchain⟩, ?_, ?_⟩
    · rw [computedOutDir_eq]
      simp only [fsIsDir] at hdir1 ⊢
      rw [hdirs2]
      exact hdir1
    · exact ⟨tail, by rw [hlog2, hlog1]⟩
  cases hol : cfg.output_log with
  | false =>
    simp only [hol, Bool.false_eq_true, if_false] at hrun
    exact main none (Or.inl hol) hrun
  | true =>
    rw [checksum_ok hsrc1] at hrun
    simp only [hol, if_true, Except.map] at hrun
    exact main (some c) (Or.inr rfl) hrun

/-- A `process_file` run against an established skip chain, any strategy:
it records exactly one `skip` keyed by the source fingerprint and leaves
everything but the log and the printer untouched. -/
theorem process_file_skipchain_run (cfg : Config) (env : Env) {st : RunState}
    {file : String} {fuel : Nat} {c k : Nat}
    (hxf : strEndsWith file ".xmp" = false)
    (hsrc : assocLookup st.fs.files file = some c)
    (hchain : SkipChainAt st.fs (computedTargetPath cfg env file) c k)
    (hdir : fsIsDir st.fs (computedOutDir cfg env file) = true)
    (hk : k ≤ fuel) :
    process_file cfg env st file fuel =
      Except.ok { st with
        log := st.log ++
          [⟨some c, file, chainTarget (computedTargetPath cfg env file) k,
            Action.skip⟩],
        printed := st.printed ++ [file,
          " => skipped, duplicated file " ++
            chainTarget (computedTargetPath cfg env file) k] } := by
  have hdir' : fsIsDir (stPrint st file).fs
      (output_dir_path cfg (dateArg env file) file) = true := by
    rw [← computedOutDir_eq]
    exact hdir
  have hid : (get_output_dir cfg (stPrint st file) (dateArg env file) file).1
      = stPrint st file := get_output_dir_fst_of_isDir hdir'
  simp only [process_file, hxf, Bool.false_eq_true, if_false, gfnap_eq, hid]
  have hloop := processLoop_skipchain_run cfg env file
    (computedOutDir cfg env file) (computedName cfg env file)
    (computedTargetPath cfg env file) (stPrint st file) c k hsrc hchain fuel
  have h1k : 1 ≤ k := hchain.1
  cases hol : cfg.output_log with
  | false =>
    simp only [hol, Bool.false_eq_true, if_false]
    have hl := hloop 1 none (le_refl 1) h1k (by omega) (Or.inl hol)
    rw [chainTarget_one] at hl
    rw [hl]
    simp [stPrint, stAddEntry, add_entry]
  | true =>
    have hsrc' : assocLookup (stPrint st file).fs.files file = some c := hsrc
    rw [checksum_ok hsrc']
    simp only [hol, if_true, Except.map]
    have hl := hloop 1 (some c) (le_refl 1) h1k (by omega) (Or.inr rfl)
    rw [chainTarget_one] at hl
    rw [hl]
    simp [stPrint, stAddEntry, add_entry]

/-- The scan of `removeAll` is fuel-insensitive once the fuel covers the
list. -/
theorem stripAllAux_fuel (p : Char) (ps : List Char) :
    ∀ fuel fuel' l, l.length ≤ fuel → l.length ≤ fuel' →
      stripAllAux p ps fuel l = stripAllAux p ps fuel' l := by
  intro fuel
  induction fuel with
  | zero =>
    intro fuel' l hl hl'
    have hnil : l = [] := List.eq_nil_of_length_eq_zero (by omega)
    subst hnil
    cases fuel' <;> rfl
  | succ fuel ih =>
    intro fuel' l hl hl'
    cases l with
    | nil => cases fuel' <;> rfl
    | cons c rest =>
      cases fuel' with
      | zero => simp at hl'
      | succ fuel' =>
        simp only [stripAllAux]
        split_ifs with h
        · exact ih fuel' (rest.drop ps.length)
            (by simp [List.length_drop] at *; omega)
            (by simp [List.length_drop] at *; omega)
        · rw [ih fuel' rest (by simp at hl; omega) (by simp at hl'; omega)]

/-- The scan never fires on a list shorter than the pattern's tail. -/
theorem stripAllAux_short (p : Char) (ps : List Char) :
    ∀ fuel l, l.length ≤ ps.length → stripAllAux p ps fuel l = l := by
  intro fuel
  induction fuel with
  | zero =>
    intro l hl
    cases l <;> rfl
  | succ fuel ih =>
    intro l hl
    cases l with
    | nil => rfl
    | cons c rest =>
      simp only [stripAllAux]
      split_ifs with h
      · exfalso
        have := (List.isPrefixOf_iff_prefix.mp h.2).length_le
        simp at hl
        omega
      · rw [ih rest (by simp at hl; omega)]

/-- The scan consumes the pattern when the list starts with it. -/
theorem stripAllAux_head (p : Char) (ps : List Char) (rest : List Char)
    (fuel : Nat) :
    stripAllAux p ps (fuel + 1) (p :: (ps ++ rest)) =
      stripAllAux p ps fuel rest := by
  have hp : ps.isPrefixOf (ps ++ rest) = true :=
    List.isPrefixOf_iff_prefix.mpr (List.prefix_append ps rest)
  simp only [stripAllAux, hp, and_true, eq_self_iff_true, if_true,
    List.drop_left]

/-- The scan is the identity on occurrence-free lists. -/
theorem stripAllAux_no_occur (p : Char) (ps : List Char) :
    ∀ fuel l, containsSubAux (p :: ps) l = false → stripAllAux p ps fuel l = l := by
  intro fuel
  induction fuel with
  | zero =>
    intro l hl
    cases l <;> rfl
  | succ fuel ih =>
    intro l hl
    cases l with
    | nil => rfl
    | cons c rest =>
      simp only [containsSubAux, Bool.or_eq_false_iff] at hl
      simp only [stripAllAux]
      split_ifs with h
      · exfalso
        have : List.isPrefixOf (p :: ps) (c :: rest) = true := by
          simp only [List.isPrefixOf]
          rw [h.1]
          simp [h.2]
        rw [this] at hl
        exact absurd hl.1 (by simp)
      · rw [ih rest hl.2]

/-- Removing a pattern longer than the scanned string changes nothing. -/
theorem removeAll_of_longer {s pat : String}
    (h : s.data.length < pat.data.length) : removeAll s pat = s := by
  unfold removeAll
  cases hp : pat.data with
  | nil => rfl
  | cons p ps =>
    apply String.ext
    show stripAllAux p ps s.data.length s.data = s.data
    apply stripAllAux_short
    rw [hp] at h
    simp only [List.length_cons] at h
    omega

/-- Removing a pattern from an occurrence-free string changes nothing. -/
theorem removeAll_no_occur {s pat : String} (h : containsSub s pat = false) :
    removeAll s pat = s := by
  unfold removeAll
  cases hp : pat.data with
  | nil => rfl
  | cons p ps =>
    apply String.ext
    show stripAllAux p ps s.data.length s.data = s.data
    apply stripAllAux_no_occur
    unfold containsSub at h
    rw [hp] at h
    exact h

/-- Removing the pattern from `pattern ++ rest` removes the leading copy
and continues in `rest`. -/
theorem removeAll_append_self (pat rel : String) (hne : pat.data ≠ []) :
    removeAll (pat ++ rel) pat = removeAll rel pat := by
  unfold removeAll
  cases hp : pat.data with
  | nil => exact absurd hp hne
  | cons p ps =>
    apply String.ext
    show stripAllAux p ps (pat ++ rel).data.length (pat ++ rel).data
      = (⟨stripAllAux p ps rel.data.length rel.data⟩ : String).data
    have hdata : (pat ++ rel).data = p :: (ps ++ rel.data) := by
      rw [String.data_append, hp]
      rfl
    rw [hdata]
    simp only [List.length_cons]
    rw [stripAllAux_head p ps rel.data _]
    exact stripAllAux_fuel p ps (ps ++ rel.data).length rel.data.length
      rel.data (by simp) (le_refl _)

/-- The prefix-strip behaviour of the unknown bucket: when the containing
directory is the configured root plus a relative part free of further
root occurrences, exactly the leading root prefix is removed. -/
theorem removeAll_root (root rel : String)
    (hno : containsSub rel (root ++ "/") = false) :
    removeAll (root ++ "/" ++ rel) (root ++ "/") = rel := by
  rw [String.append_assoc] at *
  rw [show root ++ ("/" ++ rel) = (root ++ "/") ++ rel from by
    rw [String.append_assoc]]
  rw [removeAll_append_self (root ++ "/") rel (by
    intro h
    have := congrArg List.length h
    simp [String.data_append] at this)]
  exact removeAll_no_occur hno

/-- A suffix no longer than the appended tail is a suffix of the tail. -/
theorem suffix_of_append_le {u t y : List Char} (h : u <:+ y ++ t)
    (hl : u.length ≤ t.length) : u <:+ t := by
  obtain ⟨pre, hpre⟩ := h
  have hlen : pre.length + u.length = y.length + t.length := by
    have := congrArg List.length hpre
    simpa using this
  refine ⟨pre.drop y.length, ?_⟩
  have hy : y.length ≤ pre.length := by omega
  have := congrArg (List.drop y.length) hpre
  rw [List.drop_append_of_le_length (by omega)] at this
  rw [List.drop_append_of_le_length (le_refl _)] at this
  simpa using this

/-- Whether an appended string carries a given suffix depends only on its
tail, once the tail is at least as long as the suffix. -/
theorem strEndsWith_append_right {y t u : String}
    (hl : u.data.length ≤ t.data.length) :
    strEndsWith (y ++ t) u = strEndsWith t u := by
  simp only [strEndsWith, String.data_append]
  by_cases h : u.data <:+ t.data
  · have h2 : u.data <:+ y.data ++ t.data :=
      h.trans (List.suffix_append y.data t.data)
    rw [List.isSuffixOf_iff_suffix.mpr h, List.isSuffixOf_iff_suffix.mpr h2]
  · have h2 : ¬ u.data <:+ y.data ++ t.data :=
      fun hh => h (suffix_of_append_le hh hl)
    have e1 : List.isSuffixOf u.data (y.data ++ t.data) = false := by
      cases hb : List.isSuffixOf u.data (y.data ++ t.data) with
      | false => rfl
      | true => exact absurd (List.isSuffixOf_iff_suffix.mp hb) h2
    have e2 : List.isSuffixOf u.data t.data = false := by
      cases hb : List.isSuffixOf u.data t.data with
      | false => rfl
      | true => exact absurd (List.isSuffixOf_iff_suffix.mp hb) h
    rw [e1, e2]

/-- A target path whose extension is at least four characters and not
`.xmp` (and which does not itself end in `.xmp`) has a sidecar-free
collision chain. -/
theorem xmpSafe_of_fixed_ext {tfp : String}
    (h1 : strEndsWith tfp ".xmp" = false)
    (hlen : 4 ≤ (splitext tfp).2.data.length)
    (h2 : strEndsWith (splitext tfp).2 ".xmp" = false) :
    XmpSafe tfp := by
  intro j hj
  by_cases hj1 : j ≤ 1
  · simpa [chainTarget, hj1] using h1
  · rw [chainTarget_of_two_le (by omega)]
    have hx : (".xmp" : String).data.length = 4 := rfl
    have := strEndsWith_append_right
      (y := (splitext tfp).1 ++ "-" ++ toString j) (t := (splitext tfp).2)
      (u := ".xmp") (by rw [hx]; exact hlen)
    rw [this]
    exact h2

/-- `walk_step` on an ignored artifact with a readable source records one
`ignore` entry and nothing else. -/
theorem walk_step_ignored_eq (cfg : Config) (env : Env) {st : RunState}
    {file : String} (fuel : Nat) {c : Nat}
    (hig : ignored_files.any (fun n => n == basename file) = true)
    (hsrc : assocLookup st.fs.files file = some c) :
    walk_step cfg env st file fuel =
      Except.ok (stAddEntry st (some c) file "" Action.ignore) := by
  simp [walk_step, hig, checksum, hsrc]

/-- `walk_step` on a non-artifact is `process_file`. -/
theorem walk_step_plain_eq (cfg : Config) (env : Env) (st : RunState)
    {file : String} (fuel : Nat)
    (hig : ignored_files.any (fun n => n == basename file) = false) :
    walk_step cfg env st file fuel = process_file cfg env st file fuel := by
  simp [walk_step, hig]

/-- A full copy-mode traversal: the filesystem only gets extended, and
every non-sidecar, non-artifact file whose source was readable ends with a
skip chain at its computed target path and its output directory present. -/
theorem processAll_copy_run (cfg : Config) (env : Env)
    (hmove : cfg.move = false) (hlink : cfg.link = false)
    (hdry : cfg.dry_run = false) :
    ∀ files st st' fuel,
      (∀ f ∈ files, strEndsWith f ".xmp" = false →
        ∃ c, assocLookup st.fs.files f = some c) →
      (∀ f ∈ files, strEndsWith f ".xmp" = false →
        XmpSafe (computedTargetPath cfg env f)) →
      processAll cfg env st files fuel = Except.ok st' →
      FilesExtend st.fs st'.fs ∧
      ∀ f ∈ files, strEndsWith f ".xmp" = false →
        ignored_files.any (fun n => n == basename f) = false →
        ∀ c, assocLookup st.fs.files f = some c →
        (∃ k, 1 ≤ k ∧ k ≤ fuel ∧
          SkipChainAt st'.fs (computedTargetPath cfg env f) c k) ∧
        fsIsDir st'.fs (computedOutDir cfg env f) = true := by
  intro files
  induction files with
  | nil =>
    intro st st' fuel hsrcs hxs hrun
    simp only [processAll] at hrun
    obtain rfl := Except.ok.inj hrun
    exact ⟨filesExtend_refl _, by simp⟩
  | cons f rest ih =>
    intro st st' fuel hsrcs hxs hrun
    simp only [processAll] at hrun
    cases hstep : walk_step cfg env st f fuel with
    | error e => rw [hstep] at hrun; cases hrun
    | ok st1 =>
      rw [hstep] at hrun
      by_cases hxf : strEndsWith f ".xmp" = true
      · have hig : ignored_files.any (fun n => n == basename f) = false := by
          cases hig : ignored_files.any (fun n => n == basename f) with
          | false => rfl
          | true => exact absurd hxf (by rw [ignored_not_xmp hig]; simp)
        rw [walk_step_plain_eq cfg env st fuel hig,
          process_file_xmp_eq cfg env st fuel hxf] at hstep
        obtain rfl := Except.ok.inj hstep
        obtain ⟨hext, hrest⟩ := ih st st' fuel
          (fun g hg hgx => hsrcs g (by simp [hg]) hgx)
          (fun g hg hgx => hxs g (by simp [hg]) hgx) hrun
        refine ⟨hext, ?_⟩
        intro g hg hgx hgig c hgc
        rcases List.mem_cons.mp hg with rfl | hg'
        · rw [hxf] at hgx; cases hgx
        · exact hrest g hg' hgx hgig c hgc
      · have hxf' : strEndsWith f ".xmp" = false := by
          cases h : strEndsWith f ".xmp" with
          | true => exact absurd h hxf
          | false => rfl
        obtain ⟨c, hc⟩ := hsrcs f (by simp) hxf'
        by_cases hig : ignored_files.any (fun n => n == basename f) = true
        · rw [walk_step_ignored_eq cfg env fuel hig hc] at hstep
          obtain rfl := Except.ok.inj hstep
          obtain ⟨hext, hrest⟩ := ih (stAddEntry st (some c) f "" Action.ignore)
            st' fuel
            (fun g hg hgx => hsrcs g (by simp [hg]) hgx)
            (fun g hg hgx => hxs g (by simp [hg]) hgx) hrun
          refine ⟨hext, ?_⟩
          intro g hg hgx hgig c' hgc
          rcases List.mem_cons.mp hg with rfl | hg'
          · rw [hig] at hgig; cases hgig
          · exact hrest g hg' hgx hgig c' hgc
        · have hig' : ignored_files.any (fun n => n == basename f) = false := by
            cases h : ignored_files.any (fun n => n == basename f) with
            | true => exact absurd h hig
            | false => rfl
          rw [walk_step_plain_eq cfg env st fuel hig'] at hstep
          obtain ⟨hext1, ⟨k, hk1, hk2, hchain⟩, hdir1, -⟩ :=
            process_file_copy_run cfg env hmove hlink hdry hxf'
              (hxs f (by simp) hxf') hc hstep
          obtain ⟨hext2, hrest⟩ := ih st1 st' fuel
            (by
              intro g hg hgx
              obtain ⟨cg, hcg⟩ := hsrcs g (by simp [hg]) hgx
              exact ⟨cg, filesExtend_lookup hext1 hcg hgx⟩)
            (fun g hg hgx => hxs g (by simp [hg]) hgx) hrun
          refine ⟨filesExtend_trans hext1 hext2, ?_⟩
          intro g hg hgx hgig c' hgc
          rcases List.mem_cons.mp hg with rfl | hg'
          · have hcc : c' = c := by
              rw [hgc] at hc
              exact Option.some.inj hc
            subst hcc
            refine ⟨⟨k, hk1, hk2,
              skipChainAt_extend hext2 (hxs g (by simp) hgx) hchain⟩, ?_⟩
            exact filesExtend_isDir hext2 hdir1
          · exact hrest g hg' hgx hgig c'
              (filesExtend_lookup hext1 hgc hgx)

/-- A traversal in which every non-sidecar file is readable and every
non-artifact among them already has a skip chain: nothing in the
filesystem changes, and each such file is marked `skip`.  This holds for
every transfer strategy, since the duplicate branch precedes them all. -/
theorem processAll_skip_run (cfg : Config) (env : Env) :
    ∀ files st fuel,
      (∀ f ∈ files, strEndsWith f ".xmp" = false →
        ∃ c, assocLookup st.fs.files f = some c ∧
          (ignored_files.any (fun n => n == basename f) = false →
            ∃ k, 1 ≤ k ∧ k ≤ fuel ∧
              SkipChainAt st.fs (computedTargetPath cfg env f) c k)) →
      (∀ f ∈ files, strEndsWith f ".xmp" = false →
        ignored_files.any (fun n => n == basename f) = false →
        fsIsDir st.fs (computedOutDir cfg env f) = true) →
      ∃ st', processAll cfg env st files fuel = Except.ok st' ∧
        st'.fs = st.fs ∧ (∃ tail, st'.log = st.log ++ tail) ∧
        ∀ f ∈ files, strEndsWith f ".xmp" = false →
          ignored_files.any (fun n => n == basename f) = false →
          ∃ e ∈ st'.log, e.src = f ∧ e.action = Action.skip := by
  intro files
  induction files with
  | nil =>
    intro st fuel h1 h2
    exact ⟨st, rfl, rfl, ⟨[], by simp⟩, by simp⟩
  | cons f rest ih =>
    intro st fuel h1 h2
    by_cases hxf : strEndsWith f ".xmp" = true
    · have hig : ignored_files.any (fun n => n == basename f) = false := by
        cases hig : ignored_files.any (fun n => n == basename f) with
        | false => rfl
        | true => exact absurd hxf (by rw [ignored_not_xmp hig]; simp)
      obtain ⟨st', hok, hfs, htail, hmarks⟩ := ih st fuel
        (fun g hg hgx => h1 g (by simp [hg]) hgx)
        (fun g hg => h2 g (by simp [hg]))
      refine ⟨st', ?_, hfs, htail, ?_⟩
      · simp only [processAll,
          walk_step_plain_eq cfg env st fuel hig,
          process_file_xmp_eq cfg env st fuel hxf]
        exact hok
      · intro g hg hgx hgig
        rcases List.mem_cons.mp hg with rfl | hg'
        · rw [hxf] at hgx; cases hgx
        · exact hmarks g hg' hgx hgig
    · have hxf' : strEndsWith f ".xmp" = false := by
        cases h : strEndsWith f ".xmp" with
        | true => exact absurd h hxf
        | false => rfl
      obtain ⟨c, hc, hchain⟩ := h1 f (by simp) hxf'
      by_cases hig : ignored_files.any (fun n => n == basename f) = true
      · have step := walk_step_ignored_eq cfg env fuel hig hc
        obtain ⟨st', hok, hfs, htail, hmarks⟩ :=
          ih (stAddEntry st (some c) f "" Action.ignore) fuel
            (fun g hg hgx => h1 g (by simp [hg]) hgx)
            (fun g hg => h2 g (by simp [hg]))
        refine ⟨st', ?_, hfs, ?_, ?_⟩
        · simp only [processAll, step]
          exact hok
        · obtain ⟨tail, htail'⟩ := htail
          refine ⟨⟨some c, f, "", Action.ignore⟩ :: tail, ?_⟩
          rw [htail']
          simp [stAddEntry, add_entry]
        · intro g hg hgx hgig
          rcases List.mem_cons.mp hg with rfl | hg'
          · rw [hig] at hgig; cases hgig
          · exact hmarks g hg' hgx hgig
      · have hig' : ignored_files.any (fun n => n == basename f) = false := by
          cases h : ignored_files.any (fun n => n == basename f) with
          | true => exact absurd h hig
          | false => rfl
        obtain ⟨k, hk1, hk2, hchn⟩ := hchain hig'
        have step := process_file_skipchain_run cfg env hxf' hc hchn
          (h2 f (by simp) hxf' hig') hk2
        obtain ⟨st', hok, hfs, htail, hmarks⟩ := ih { st with
            log := st.log ++
              [⟨some c, f, chainTarget (computedTargetPath cfg env f) k,
                Action.skip⟩],
            printed := st.printed ++ [f,
              " => skipped, duplicated file " ++
                chainTarget (computedTargetPath cfg env f) k] } fuel
          (fun g hg hgx => h1 g (by simp [hg]) hgx)
          (fun g hg => h2 g (by simp [hg]))
        refine ⟨st', ?_, hfs, ?_, ?_⟩
        · simp only [processAll,
            walk_step_plain_eq cfg env st fuel hig', step]
          exact hok
        · obtain ⟨tail, htail'⟩ := htail
          refine ⟨⟨some c, f, chainTarget (computedTargetPath cfg env f) k,
            Action.skip⟩ :: tail, ?_⟩
          rw [htail']
          simp
        · intro g hg hgx hgig
          rcases List.mem_cons.mp hg with rfl | hg'
          · refine ⟨⟨some c, g, chainTarget (computedTargetPath cfg env g) k,
              Action.skip⟩, ?_, rfl, rfl⟩
            obtain ⟨tail, htail'⟩ := htail
            rw [htail']
            simp
          · exact hmarks g hg' hgx hgig



/-- C4 (amended): rerunning the copy-strategy engine on the same input
list against the output of a first run - with every non-sidecar source
still readable and no non-sidecar file's collision chain shaped like a
sidecar - changes nothing in the filesystem (no new destination files, no
new suffixes, no new directories) and marks every non-sidecar,
non-OS-artifact file as `skip`; sidecar (`.xmp`) inputs get no log entry
and artifacts are re-recorded as `ignore` rather than `skip`. -/
theorem c4_amended (cfg : Config) (env : Env) (files : List String)
    (st0 st1 : RunState) (fuel : Nat)
    (hmove : cfg.move = false) (hlink : cfg.link = false)
    (hdry : cfg.dry_run = false)
    (hsrcs : ∀ f ∈ files, strEndsWith f ".xmp" = false →
      ∃ c, assocLookup st0.fs.files f = some c)
    (hxs : ∀ f ∈ files, strEndsWith f ".xmp" = false →
      XmpSafe (computedTargetPath cfg env f))
    (hrun1 : processAll cfg env st0 files fuel = Except.ok st1) :
    ∃ st2, processAll cfg env { st1 with log := [], printed := [] } files fuel
        = Except.ok st2 ∧
      st2.fs = st1.fs ∧
      ∀ f ∈ files, strEndsWith f ".xmp" = false →
        ignored_files.any (fun n => n == basename f) = false →
        ∃ e ∈ st2.log, e.src = f ∧ e.action = Action.skip := by
  obtain ⟨hext, hper⟩ :=
    processAll_copy_run cfg env hmove hlink hdry files st0 st1 fuel hsrcs hxs
      hrun1
  obtain ⟨st2, hok, hfs2, -, hmarks⟩ :=
    processAll_skip_run cfg env files { st1 with log := [], printed := [] }
      fuel
      (by
        intro f hf hxf
        obtain ⟨c, hc⟩ := hsrcs f hf hxf
        refine ⟨c, filesExtend_lookup hext hc hxf, ?_⟩
        intro hig
        exact (hper f hf hxf hig c hc).1)
      (by
        intro f hf hxf hig
        obtain ⟨c, hc⟩ := hsrcs f hf hxf
        exact (hper f hf hxf hig c hc).2)
  exact ⟨st2, hok, hfs2, hmarks⟩

/-- Witness for the amended C4: the `photo.cr2` + sidecar scenario run
twice; the second run leaves the filesystem alone and marks the primary
`skip`. -/
theorem c4_amended_witness :
    ∃ st2, processAll cfgCopy envCr2
        { finalState runCr2WithExt stCr2WithExt with log := [], printed := [] }
        ["/in/photo.cr2", "/in/photo.cr2.xmp"] 10 = Except.ok st2 ∧
      st2.fs = (finalState runCr2WithExt stCr2WithExt).fs ∧
      ∀ f ∈ ["/in/photo.cr2", "/in/photo.cr2.xmp"],
        strEndsWith f ".xmp" = false →
        ignored_files.any (fun n => n == basename f) = false →
        ∃ e ∈ st2.log, e.src = f ∧ e.action = Action.skip := by
  refine c4_amended cfgCopy envCr2 ["/in/photo.cr2", "/in/photo.cr2.xmp"]
    stCr2WithExt (finalState runCr2WithExt stCr2WithExt) 10
    rfl rfl rfl ?_ ?_ (by decide)
  · intro f hf hxf
    simp only [List.mem_cons, List.not_mem_nil, or_false] at hf
    rcases hf with rfl | rfl
    · exact ⟨5, by decide⟩
    · exact absurd hxf (by decide)
  · intro f hf hxf
    simp only [List.mem_cons, List.not_mem_nil, or_false] at hf
    rcases hf with rfl | rfl
    · exact xmpSafe_of_fixed_ext (by decide) (by decide) (by decide)
    · exact absurd hxf (by decide)

/-- Removing one path leaves lookups of other paths unchanged. -/
theorem assocLookup_remove_other (fs : FS) (p : String) {q : String}
    (h : p ≠ q) : assocLookup (fsRemove fs p).files q = assocLookup fs.files q := by
  show assocLookup (fs.files.filter (fun e => e.1 != p)) q = assocLookup fs.files q
  induction fs.files with
  | nil => rfl
  | cons e rest ih =>
    obtain ⟨k, v⟩ := e
    by_cases hk : k = p
    · subst hk
      simp only [List.filter_cons, bne_self_eq_false, Bool.false_eq_true,
        if_false, ih]
      rw [assocLookup]
      rw [if_neg h]
    · simp only [List.filter_cons, bne_iff_ne, ne_eq, hk, not_false_eq_true,
        if_true, assocLookup, ih]

/-- Whatever `xmpTransfer` does, its printer output is the single
`orig => path` line. -/
theorem xmpTransfer_printed {cfg : Config} {st st' : RunState}
    {orig target output : String}
    (h : xmpTransfer cfg st orig target output = Except.ok st') :
    st'.printed = st.printed ++ [orig ++ " => " ++ joinPath [output, target]] := by
  unfold xmpTransfer at h
  dsimp only at h
  split_ifs at h <;>
    (try split at h) <;>
    first
      | (obtain rfl := Except.ok.inj h; simp [stPrint])
      | cases h

/-- Whatever `process_xmp` does, its printer output is `xmpLines`. -/
theorem process_xmp_printed {cfg : Config} {st st' : RunState}
    {file file_name : String} {suffix : Nat} {output : String}
    (h : process_xmp cfg st file file_name suffix output = Except.ok st') :
    st'.printed = st.printed ++ xmpLines st.fs file file_name suffix output := by
  unfold process_xmp at h
  unfold xmpLines
  dsimp only at h ⊢
  by_cases h1 : fsIsFile st.fs (file ++ ".xmp") = true
  · rw [if_pos h1] at h
    rw [if_pos h1]
    exact xmpTransfer_printed h
  · rw [if_neg h1] at h
    rw [if_neg h1]
    by_cases h2 : fsIsFile st.fs ((splitext file).1 ++ ".xmp") = true
    · rw [if_pos h2] at h
      rw [if_pos h2]
      exact xmpTransfer_printed h
    · rw [if_neg h2] at h
      rw [if_neg h2]
      obtain rfl := Except.ok.inj h
      simp

/-- Whatever `processFinish` does, its printer output is the target line
followed by `xmpLines`. -/
theorem processFinish_printed {cfg : Config} {st st' : RunState}
    {file file_name : String} {suffix : Nat} {output target : String}
    (h : processFinish cfg st file file_name suffix output target = Except.ok st') :
    st'.printed = st.printed ++ (" => " ++ target) ::
      xmpLines st.fs file file_name suffix output := by
  unfold processFinish at h
  have := process_xmp_printed h
  rw [this]
  simp [stPrint]

/-- A dry-run sidecar step never touches the filesystem. -/
theorem process_xmp_dry_fs {cfg : Config} {st st' : RunState}
    {file file_name : String} {suffix : Nat} {output : String}
    (hdry : cfg.dry_run = true)
    (h : process_xmp cfg st file file_name suffix output = Except.ok st') :
    st'.fs = st.fs := by
  unfold process_xmp at h
  dsimp only at h
  by_cases h1 : fsIsFile st.fs (file ++ ".xmp") = true
  · rw [if_pos h1, xmpTransfer_dry_eq cfg hdry] at h
    obtain rfl := Except.ok.inj h
    rfl
  · rw [if_neg h1] at h
    by_cases h2 : fsIsFile st.fs ((splitext file).1 ++ ".xmp") = true
    · rw [if_pos h2, xmpTransfer_dry_eq cfg hdry] at h
      obtain rfl := Except.ok.inj h
      rfl
    · rw [if_neg h2] at h
      obtain rfl := Except.ok.inj h
      rfl

/-- A dry-run collision loop never touches the filesystem. -/
theorem processLoop_dry_fs (cfg : Config) (env : Env)
    (file output tfn tfp : String) (hdry : cfg.dry_run = true) :
    ∀ fuel chk suffix target st st',
      processLoop cfg env file output tfn tfp chk suffix target st fuel
        = Except.ok st' →
      st'.fs = st.fs := by
  intro fuel
  induction fuel with
  | zero => intro chk suffix target st st' h; cases h
  | succ fuel ih =>
    intro chk suffix target st st' h
    rw [processLoop] at h
    by_cases ht : fsIsFile st.fs target = true
    · rw [if_pos ht] at h
      set r := (if cfg.output_log = false then
        Except.map some (checksum st.fs file) else Except.ok chk) with hr
      clear_value r
      cases r with
      | error e => cases h
      | ok chk' =>
        set r2 := checksum st.fs target with hr2
        clear_value r2
        cases r2 with
        | error e => cases h
        | ok tc =>
          dsimp only at h
          by_cases hc : chk' = some tc
          · rw [if_pos hc] at h
            obtain rfl := Except.ok.inj h
            rfl
          · rw [if_neg hc] at h
            exact ih _ _ _ _ _ h
    · rw [if_neg ht, if_neg (by simp [hdry]), if_neg (by simp [hdry]),
        if_neg (by simp [hdry])] at h
      unfold processFinish at h
      have h2 := process_xmp_dry_fs hdry h
      exact h2

/-- A dry-run `process_file` never touches the filesystem. -/
theorem process_file_dry_fs (cfg : Config) (env : Env) {st st' : RunState}
    {file : String} {fuel : Nat} (hdry : cfg.dry_run = true)
    (h : process_file cfg env st file fuel = Except.ok st') :
    st'.fs = st.fs := by
  unfold process_file at h
  by_cases hx : strEndsWith file ".xmp" = true
  · rw [if_pos hx] at h
    obtain rfl := Except.ok.inj h
    rfl
  · rw [if_neg hx] at h
    dsimp only at h
    rw [gfnap_eq] at h
    dsimp only at h
    have hgd : (get_output_dir cfg (stPrint st file) (dateArg env file) file).1
        = stPrint st file := by
      rw [get_output_dir_eq]
      rw [if_neg (by simp [hdry])]
    rw [hgd] at h
    set r := (if cfg.output_log then
      Except.map some (checksum (stPrint st file).fs file)
      else Except.ok none) with hr
    clear_value r
    cases r with
    | error e => cases h
    | ok chk =>
      dsimp only at h
      have h2 := processLoop_dry_fs cfg env file (computedOutDir cfg env file)
        (computedName cfg env file) (computedTargetPath cfg env file) hdry fuel
        chk 1 (computedTargetPath cfg env file) (stPrint st file) st' h
      exact h2

/-- A dry-run traversal never touches the filesystem. -/
theorem processAll_dry_fs (cfg : Config) (env : Env) (hdry : cfg.dry_run = true) :
    ∀ files st st' fuel,
      processAll cfg env st files fuel = Except.ok st' → st'.fs = st.fs := by
  intro files
  induction files with
  | nil =>
    intro st st' fuel h
    obtain rfl := Except.ok.inj h
    rfl
  | cons f rest ih =>
    intro st st' fuel h
    rw [processAll] at h
    revert h
    cases hstep : walk_step cfg env st f fuel with
    | error e => intro h; cases h
    | ok st1 =>
      intro h
      have h2 := ih st1 st' fuel h
      rw [h2]
      unfold walk_step at hstep
      split_ifs at hstep with hig
      · revert hstep
        cases checksum st.fs f with
        | error e => intro hstep; cases hstep
        | ok c =>
          intro hstep
          obtain rfl := Except.ok.inj hstep
          rfl
      · exact process_file_dry_fs cfg env hdry hstep

/-- Loop step, free candidate under the move strategy. -/
theorem processLoop_fresh_move_eq (cfg : Config) (env : Env)
    {file output tfn tfp : String} {chk : Option Nat} {suffix : Nat}
    {target : String} {st : RunState} {fuel : Nat} {c : Nat}
    (hfresh : assocLookup st.fs.files target = none)
    (hm : cfg.move = true) (hdry : cfg.dry_run = false)
    (hsrc : assocLookup st.fs.files file = some c) :
    processLoop cfg env file output tfn tfp chk suffix target st (fuel + 1) =
      processFinish cfg
        (stAddEntry { st with fs := fsWrite (fsRemove st.fs file) target c }
          chk file target Action.move)
        file tfn suffix output target := by
  have ht : fsIsFile st.fs target = false := by simp [fsIsFile, hfresh]
  simp [processLoop, ht, hm, hdry, hsrc, stAddEntry]

/-- Loop step, free candidate under the link strategy with a readable
source. -/
theorem processLoop_fresh_link_eq (cfg : Config) (env : Env)
    {file output tfn tfp : String} {chk : Option Nat} {suffix : Nat}
    {target : String} {st : RunState} {fuel : Nat} {c : Nat}
    (hfresh : assocLookup st.fs.files target = none)
    (hmove : cfg.move = false) (hl : cfg.link = true)
    (hdry : cfg.dry_run = false)
    (hsrc : assocLookup st.fs.files file = some c) :
    processLoop cfg env file output tfn tfp chk suffix target st (fuel + 1) =
      processFinish cfg
        (stAddEntry { st with fs := fsWrite st.fs target c }
          chk file target Action.link)
        file tfn suffix output target := by
  have ht : fsIsFile st.fs target = false := by simp [fsIsFile, hfresh]
  simp [processLoop, ht, hmove, hl, hdry, hsrc, stAddEntry]

/-- File-existence depends only on the file table. -/
theorem fsIsFile_files_congr {fsA fsB : FS} (h : fsA.files = fsB.files)
    (p : String) : fsIsFile fsA p = fsIsFile fsB p := by
  unfold fsIsFile
  rw [h]

/-- `xmpLines` depends only on the status of the two candidate paths. -/
theorem xmpLines_congr {fsA fsB : FS} (file file_name : String)
    (suffix : Nat) (output : String)
    (h1 : fsIsFile fsA (file ++ ".xmp") = fsIsFile fsB (file ++ ".xmp"))
    (h2 : fsIsFile fsA ((splitext file).1 ++ ".xmp")
      = fsIsFile fsB ((splitext file).1 ++ ".xmp")) :
    xmpLines fsA file file_name suffix output
      = xmpLines fsB file file_name suffix output := by
  unfold xmpLines
  dsimp only
  rw [h1, h2]

/-- A sidecar candidate path survives a write at a chain candidate. -/
theorem cand_isFile_write {fs : FS} {target y : String} {c : Nat}
    (hx : strEndsWith target ".xmp" = false) :
    fsIsFile (fsWrite fs target c) (y ++ ".xmp") = fsIsFile fs (y ++ ".xmp") := by
  unfold fsIsFile
  rw [assocLookup_write_other fs target c
    (Ne.symm (ne_of_xmp_mismatch (strEndsWith_append y ".xmp") hx))]

/-- A sidecar candidate path survives the unlink half of a move. -/
theorem cand_isFile_remove {fs : FS} {file y : String}
    (hx : strEndsWith file ".xmp" = false) :
    fsIsFile (fsRemove fs file) (y ++ ".xmp") = fsIsFile fs (y ++ ".xmp") := by
  unfold fsIsFile
  rw [assocLookup_remove_other fs file
    (Ne.symm (ne_of_xmp_mismatch (strEndsWith_append y ".xmp") hx))]

/-- The collision loop prints the same lines in dry-run and real mode when
started on states with the same files and printer output: the loop
branches only on pre-existing files, and a transfer mutates nothing a
later print of the same file inspects. -/
theorem processLoop_dry_real_print (cfg : Config) (env : Env)
    (file output tfn tfp : String) (c : Nat)
    (hdry : cfg.dry_run = false)
    (hxf : strEndsWith file ".xmp" = false)
    (hxs : XmpSafe tfp) :
    ∀ fuel suffix chk stD stR st1 st2, 1 ≤ suffix →
      stD.fs.files = stR.fs.files →
      stD.printed = stR.printed →
      (cfg.output_log = false ∨ chk = some c) →
      assocLookup stR.fs.files file = some c →
      processLoop { cfg with dry_run := true } env file output tfn tfp chk
        suffix (chainTarget tfp suffix) stD fuel = Except.ok st1 →
      processLoop cfg env file output tfn tfp chk suffix
        (chainTarget tfp suffix) stR fuel = Except.ok st2 →
      st1.printed = st2.printed := by
  intro fuel
  induction fuel with
  | zero =>
    intro suffix chk stD stR st1 st2 hs hfiles hpr hchk hsrc h1 h2
    cases h1
  | succ fuel ih =>
    intro suffix chk stD stR st1 st2 hs hfiles hpr hchk hsrc h1 h2
    have hsrcD : assocLookup stD.fs.files file = some c := by
      rw [hfiles]; exact hsrc
    have hchkD : ({ cfg with dry_run := true } : Config).output_log = false
        ∨ chk = some c := hchk
    cases htv : assocLookup stR.fs.files (chainTarget tfp suffix) with
    | some d =>
      have htvD : assocLookup stD.fs.files (chainTarget tfp suffix) = some d := by
        rw [hfiles]; exact htv
      by_cases hdc : d = c
      · subst hdc
        rw [processLoop_skip_eq _ env hsrcD htvD hchkD] at h1
        rw [processLoop_skip_eq cfg env hsrc htv hchk] at h2
        obtain rfl := Except.ok.inj h1
        obtain rfl := Except.ok.inj h2
        simp [stPrint, stAddEntry, hpr]
      · have hne : c ≠ d := fun h => hdc h.symm
        rw [processLoop_collide_eq _ env hsrcD htvD hne hchkD] at h1
        rw [processLoop_collide_eq cfg env hsrc htv hne hchk] at h2
        exact ih (suffix + 1) (some c) stD stR st1 st2 (by omega) hfiles hpr
          (Or.inr rfl) hsrc h1 h2
    | none =>
      have htvD : assocLookup stD.fs.files (chainTarget tfp suffix) = none := by
        rw [hfiles]; exact htv
      rw [processLoop_fresh_dry_eq _ env htvD rfl] at h1
      have hp1 := processFinish_printed h1
      have hnx : strEndsWith (chainTarget tfp suffix) ".xmp" = false :=
        hxs suffix hs
      by_cases hm : cfg.move = true
      · rw [processLoop_fresh_move_eq cfg env htv hm hdry hsrc] at h2
        have hp2 := processFinish_printed h2
        rw [hp1, hp2]
        simp only [stAddEntry, add_entry]
        rw [hpr]
        congr 2
        refine xmpLines_congr file tfn suffix output ?_ ?_
        · rw [cand_isFile_write hnx, cand_isFile_remove hxf]
          exact fsIsFile_files_congr hfiles _
        · rw [cand_isFile_write hnx, cand_isFile_remove hxf]
          exact fsIsFile_files_congr hfiles _
      · have hm' : cfg.move = false := by
          cases h : cfg.move with
          | true => exact absurd h hm
          | false => rfl
        by_cases hl : cfg.link = true
        · rw [processLoop_fresh_link_eq cfg env htv hm' hl hdry hsrc] at h2
          have hp2 := processFinish_printed h2
          rw [hp1, hp2]
          simp only [stAddEntry, add_entry]
          rw [hpr]
          congr 2
          refine xmpLines_congr file tfn suffix output ?_ ?_
          · rw [cand_isFile_write hnx]
            exact fsIsFile_files_congr hfiles _
          · rw [cand_isFile_write hnx]
            exact fsIsFile_files_congr hfiles _
        · have hl' : cfg.link = false := by
            cases h : cfg.link with
            | true => exact absurd h hl
            | false => rfl
          rw [processLoop_fresh_copy_eq cfg env htv hm' hl' hdry hsrc] at h2
          have hp2 := processFinish_printed h2
          rw [hp1, hp2]
          simp only [stAddEntry, add_entry]
          rw [hpr]
          congr 2
          refine xmpLines_congr file tfn suffix output ?_ ?_
          · rw [cand_isFile_write hnx]
            exact fsIsFile_files_congr hfiles _
          · rw [cand_isFile_write hnx]
            exact fsIsFile_files_congr hfiles _

/-- Enabling dry-run does not change the computed destination directory. -/
theorem computedOutDir_dry (cfg : Config) (env : Env) (file : String) :
    computedOutDir { cfg with dry_run := true } env file
      = computedOutDir cfg env file := rfl

/-- Enabling dry-run does not change the computed file name. -/
theorem computedName_dry (cfg : Config) (env : Env) (file : String) :
    computedName { cfg with dry_run := true } env file
      = computedName cfg env file := rfl

/-- Enabling dry-run does not change the computed target path. -/
theorem computedTargetPath_dry (cfg : Config) (env : Env) (file : String) :
    computedTargetPath { cfg with dry_run := true } env file
      = computedTargetPath cfg env file := rfl

/-- A single file's `process_file` prints the same lines in dry-run and
real mode: same target (and sidecar) paths reported. -/
theorem process_file_dry_real_print (cfg : Config) (env : Env)
    {st : RunState} {file : String} {fuel : Nat} {c : Nat} {st1 st2 : RunState}
    (hdry : cfg.dry_run = false)
    (hxf : strEndsWith file ".xmp" = false)
    (hxs : XmpSafe (computedTargetPath cfg env file))
    (hsrc : assocLookup st.fs.files file = some c)
    (h1 : process_file { cfg with dry_run := true } env st file fuel
      = Except.ok st1)
    (h2 : process_file cfg env st file fuel = Except.ok st2) :
    st1.printed = st2.printed := by
  have hxn : ¬ strEndsWith file ".xmp" = true := by
    rw [hxf]; exact Bool.false_ne_true
  unfold process_file at h1 h2
  rw [if_neg hxn] at h1 h2
  dsimp only at h1 h2
  rw [gfnap_eq] at h1 h2
  dsimp only at h1 h2
  have hgdD : (get_output_dir { cfg with dry_run := true } (stPrint st file)
      (dateArg env file) file).1 = stPrint st file := by
    rw [get_output_dir_eq]
    rw [if_neg (by simp)]
  rw [hgdD, computedOutDir_dry, computedName_dry, computedTargetPath_dry] at h1
  have holD : ({ cfg with dry_run := true } : Config).output_log
      = cfg.output_log := rfl
  rw [holD] at h1
  have hgR := get_output_dir_fst cfg (stPrint st file) (dateArg env file) file
  have hsrcD : assocLookup (stPrint st file).fs.files file = some c := hsrc
  have hsrcR : assocLookup (get_output_dir cfg (stPrint st file)
      (dateArg env file) file).1.fs.files file = some c := by
    rw [hgR.1]; exact hsrc
  have hfe : (stPrint st file).fs.files
      = (get_output_dir cfg (stPrint st file) (dateArg env file)
        file).1.fs.files := by
    rw [hgR.1]
  have hpe : (stPrint st file).printed
      = (get_output_dir cfg (stPrint st file) (dateArg env file)
        file).1.printed := by
    rw [hgR.2.2.1]
  cases hol : cfg.output_log with
  | false =>
    rw [if_neg (by simp [hol])] at h1 h2
    dsimp only at h1 h2
    have hmain := processLoop_dry_real_print cfg env file
      (computedOutDir cfg env file) (computedName cfg env file)
      (computedTargetPath cfg env file) c hdry hxf hxs fuel 1 none
      (stPrint st file)
      (get_output_dir cfg (stPrint st file) (dateArg env file) file).1
      st1 st2 (le_refl 1) hfe hpe (Or.inl hol) hsrcR
    rw [chainTarget_one] at hmain
    exact hmain h1 h2
  | true =>
    rw [if_pos hol] at h1 h2
    rw [checksum_ok hsrcD] at h1
    rw [checksum_ok hsrcR] at h2
    simp only [Except.map] at h1 h2
    have hmain := processLoop_dry_real_print cfg env file
      (computedOutDir cfg env file) (computedName cfg env file)
      (computedTargetPath cfg env file) c hdry hxf hxs fuel 1 (some c)
      (stPrint st file)
      (get_output_dir cfg (stPrint st file) (dateArg env file) file).1
      st1 st2 (le_refl 1) hfe hpe (Or.inr rfl) hsrcR
    rw [chainTarget_one] at hmain
    exact hmain h1 h2

/-- C2 (amended): when the primary transfer succeeds at loop position
`suffix`, a sidecar `<path>.xmp` is transferred into the same destination
directory as `<destination file name><numeric suffix if any>.xmp` - for
the first, extension-bearing sidecar form the destination file name keeps
the primary's extension and the suffix follows it (`photo.cr2.xmp` lands
at `20230101_120000.cr2.xmp`, or `20230101_120000.cr2-2.xmp` at suffix
two), while only the extension-less form `<path without extension>.xmp`
drops the extension; a primary skipped as duplicate leaves the file table,
and so the sidecar, untouched. -/
theorem c2_amended :
    (∀ cfg st file file_name suffix output s,
      cfg.move = false → cfg.link = false → cfg.dry_run = false →
      assocLookup st.fs.files (file ++ ".xmp") = some s →
      process_xmp cfg st file file_name suffix output =
        Except.ok { stPrint st ((file ++ ".xmp") ++ " => " ++
            joinPath [output, file_name ++
              (if suffix > 1 then "-" ++ toString suffix else "")
              ++ ".xmp"]) with
          fs := fsWrite st.fs
            (joinPath [output, file_name ++
              (if suffix > 1 then "-" ++ toString suffix else "")
              ++ ".xmp"]) s }) ∧
    (∀ cfg st file file_name suffix output s,
      cfg.move = false → cfg.link = false → cfg.dry_run = false →
      assocLookup st.fs.files (file ++ ".xmp") = none →
      assocLookup st.fs.files ((splitext file).1 ++ ".xmp") = some s →
      process_xmp cfg st file file_name suffix output =
        Except.ok { stPrint st (((splitext file).1 ++ ".xmp") ++ " => " ++
            joinPath [output, (splitext file_name).1 ++
              (if suffix > 1 then "-" ++ toString suffix else "")
              ++ ".xmp"]) with
          fs := fsWrite st.fs
            (joinPath [output, (splitext file_name).1 ++
              (if suffix > 1 then "-" ++ toString suffix else "")
              ++ ".xmp"]) s }) ∧
    (∀ cfg env file output tfn tfp chk suffix target st fuel c,
      assocLookup st.fs.files file = some c →
      assocLookup st.fs.files target = some c →
      (cfg.output_log = false ∨ chk = some c) →
      finalFiles (processLoop cfg env file output tfn tfp chk suffix target
        st (fuel + 1)) = st.fs.files) ∧
    (finalLookup runCr2WithExt
        "/out/archive/2023/01/01/20230101_120000.cr2.xmp" = some 9 ∧
     process_xmp cfgCopy stC2S "/in/photo.cr2" "20230101_120000.cr2" 2
        "/out/d" =
       Except.ok ⟨⟨[("/out/d/20230101_120000.cr2-2.xmp", 9),
           ("/in/photo.cr2.xmp", 9)], []⟩, [],
         ["/in/photo.cr2.xmp => /out/d/20230101_120000.cr2-2.xmp"]⟩) := by
  refine ⟨?_, ?_, ?_, ?_⟩
  · intro cfg st file file_name suffix output s hmove hlink hdry h1
    exact process_xmp_with_eq cfg hmove hlink hdry h1
  · intro cfg st file file_name suffix output s hmove hlink hdry h1 h2
    exact process_xmp_without_eq cfg hmove hlink hdry h1 h2
  · intro cfg env file output tfn tfp chk suffix target st fuel c hsrc htgt hchk
    rw [processLoop_skip_eq cfg env hsrc htgt hchk]
    rfl
  · exact ⟨by decide, by decide⟩

theorem c2_amended_witness :
    process_xmp cfgCopy stC2S "/in/photo.cr2" "name.cr2" 1 "/out/d" =
      Except.ok { stPrint stC2S (("/in/photo.cr2" ++ ".xmp") ++ " => " ++
          joinPath ["/out/d", "name.cr2" ++
            (if 1 > 1 then "-" ++ toString 1 else "") ++ ".xmp"]) with
        fs := fsWrite stC2S.fs
          (joinPath ["/out/d", "name.cr2" ++
            (if 1 > 1 then "-" ++ toString 1 else "") ++ ".xmp"]) 9 } ∧
    finalFiles (processLoop cfgCopy envNone "/in/a.jpg" "/out" "t"
        "/out/t.jpg" none 1 "/out/archive/2023/01/01/20230101_120000.jpg"
        stDup (0 + 1)) = stDup.fs.files :=
  ⟨c2_amended.1 cfgCopy stC2S "/in/photo.cr2" "name.cr2" 1 "/out/d" 9
    (by decide) (by decide) (by decide) (by decide),
   c2_amended.2.2.1 cfgCopy envNone "/in/a.jpg" "/out" "t" "/out/t.jpg"
    none 1 "/out/archive/2023/01/01/20230101_120000.jpg" stDup 0 1
    (by decide) (by decide) (Or.inl (by decide))⟩

/-- C3: a processed file whose computed destination already exists with
the same content fingerprint is recorded as exactly one `skip` action
keyed by that fingerprint; nothing is transferred, no sidecar is handled,
and the destination tree (files and directories) is untouched. -/
theorem c3_duplicate_skip (cfg : Config) (env : Env) (st : RunState)
    (file : String) (fuel : Nat) (c : Nat)
    (hxf : strEndsWith file ".xmp" = false)
    (hsrc : assocLookup st.fs.files file = some c)
    (hdup : assocLookup st.fs.files (computedTargetPath cfg env file) = some c)
    (hdir : fsIsDir st.fs (computedOutDir cfg env file) = true)
    (hfuel : 1 ≤ fuel) :
    process_file cfg env st file fuel =
      Except.ok { st with
        log := st.log ++
          [⟨some c, file, computedTargetPath cfg env file, Action.skip⟩],
        printed := st.printed ++
          [file, " => skipped, duplicated file " ++
            computedTargetPath cfg env file] } := by
  have hchain : SkipChainAt st.fs (computedTargetPath cfg env file) c 1 := by
    refine ⟨le_refl 1, ?_, ?_⟩
    · rw [chainTarget_one]
      exact hdup
    · intro j h1 h2
      omega
  have h := process_file_skipchain_run cfg env hxf hsrc hchain hdir hfuel
  rw [chainTarget_one] at h
  exact h

/-- Witness for C3: first collision scenario with an identical destination
already in place. -/
theorem c3_witness :
    process_file cfgCopy envJpg3 stDup "/in/a.jpg" 10 =
      Except.ok { stDup with
        log := [⟨some 1, "/in/a.jpg",
          "/out/archive/2023/01/01/20230101_120000.jpg", Action.skip⟩],
        printed := ["/in/a.jpg",
          " => skipped, duplicated file /out/archive/2023/01/01/20230101_120000.jpg"] } := by
  have h := c3_duplicate_skip cfgCopy envJpg3 stDup "/in/a.jpg" 10 1
    (by decide) (by decide) (by decide) (by decide) (by decide)
  rw [show computedTargetPath cfgCopy envJpg3 "/in/a.jpg" =
    "/out/archive/2023/01/01/20230101_120000.jpg" from by decide] at h
  exact h

/-- The replacement pattern is the effective root plus a separator when
the root does not already end in one. -/
theorem rootRepl_eq {cfg : Config}
    (h : strEndsWith (effectiveRoot cfg) "/" = false) :
    rootRepl cfg = effectiveRoot cfg ++ "/" := by
  simp [rootRepl, h]

/-- C10: the unknown-bucket relative path is computed by string-replacing
every occurrence of `<root>/` in the containing directory's path: (a) the
destination directory of an unclassified file is literally
`<output>/unknown/<dirname with all occurrences of root-slash removed>`;
(b) for a file directly in the root directory nothing is stripped - the
full absolute directory path is appended under `<output>/unknown`; (c)
interior occurrences are removed as well, not only the leading prefix
(`/in/x/in/y` becomes `xy`). -/
theorem c10_replace_semantics :
    (∀ cfg env file, classified env file = false →
      computedOutDir cfg env file =
        joinPath [cfg.output, "unknown",
          removeAll (dirname file) (rootRepl cfg)]) ∧
    (∀ cfg env file, classified env file = false →
      strEndsWith (effectiveRoot cfg) "/" = false →
      dirname file = effectiveRoot cfg →
      computedOutDir cfg env file =
        joinPath [cfg.output, "unknown", effectiveRoot cfg]) ∧
    computedOutDir cfgCopy envNone "/in/x/in/y/f.pdf" = "/out/unknown/xy" := by
  refine ⟨?_, ?_, by decide⟩
  · intro cfg env file h
    simp [computedOutDir, h, output_dir_path, unknownDirPath]
  · intro cfg env file h hroot hdir
    simp only [computedOutDir, h, Bool.false_eq_true, if_false,
      output_dir_path, unknownDirPath]
    rw [hdir, rootRepl_eq hroot, removeAll_of_longer]
    simp [String.data_append]

/-- Witness for C10: a dateless file directly in the input root keeps the
whole absolute directory under the unknown bucket. -/
theorem c10_witness :
    computedOutDir cfgCopy envNone "/in/gone.jpg" =
      joinPath ["/out", "unknown", effectiveRoot cfgCopy] := by
  have h := c10_replace_semantics.2.1 cfgCopy envNone "/in/gone.jpg"
    (by decide) (by decide) (by decide)
  exact h

/-- C6 (amended): files in the unknown bucket land in
`<output>/unknown/<containing directory with the leading root prefix
stripped>`; an unclassified file keeps its base name unchanged, while a
classified file with a missing date falls back to its base name
*lowercased*. -/
theorem c6_amended :
    (∀ cfg env file rel, classified env file = false →
      strEndsWith (effectiveRoot cfg) "/" = false →
      dirname file = effectiveRoot cfg ++ "/" ++ rel →
      containsSub rel (effectiveRoot cfg ++ "/") = false →
      computedOutDir cfg env file = joinPath [cfg.output, "unknown", rel] ∧
      computedName cfg env file = basename file) ∧
    (∀ cfg env file rel, classified env file = true →
      (env.resolveDate file = none ∨
        ∃ d, env.resolveDate file = some d ∧
          (d.guessing = true ∨ d.date = none)) →
      strEndsWith (effectiveRoot cfg) "/" = false →
      dirname file = effectiveRoot cfg ++ "/" ++ rel →
      containsSub rel (effectiveRoot cfg ++ "/") = false →
      computedOutDir cfg env file = joinPath [cfg.output, "unknown", rel]) ∧
    (∀ cfg env file, classified env file = true →
      cfg.original_filenames = false →
      (env.resolveDate file = none ∨
        ∃ d, env.resolveDate file = some d ∧ d.date = none) →
      computedName cfg env file = strLower (basename file)) := by
  refine ⟨?_, ?_, ?_⟩
  · intro cfg env file rel hcl hroot hdir hno
    constructor
    · simp only [computedOutDir, hcl, Bool.false_eq_true, if_false,
        output_dir_path, unknownDirPath]
      rw [hdir, rootRepl_eq hroot, removeAll_root _ _ hno]
    · simp [computedName, hcl]
  · intro cfg env file rel hcl hdate hroot hdir hno
    have hout : computedOutDir cfg env file = unknownDirPath cfg file := by
      simp only [computedOutDir, hcl, if_true]
      rcases hdate with h | ⟨d, hd, hg | hn⟩
      · simp [output_dir_path, h]
      · simp [output_dir_path, hd, hg]
      · cases hgg : d.guessing with
        | true => simp [output_dir_path, hd, hgg]
        | false => simp [output_dir_path, hd, hgg, hn]
    rw [hout]
    simp only [unknownDirPath]
    rw [hdir, rootRepl_eq hroot, removeAll_root _ _ hno]
  · intro cfg env file hcl hof hdate
    have hname : get_file_name cfg file (env.resolveDate file) = basename file := by
      rcases hdate with h | ⟨d, hd, hn⟩
      · simp [get_file_name, hof, h]
      · simp [get_file_name, hof, hd, hn]
    simp [computedName, hcl, hof, hname, strLower_strLower]

/-- Witness for the amended C6: a guessed-date JPEG under `/in/sub` goes
to `/out/unknown/sub`, named by its lowercased base name. -/
theorem c6_amended_witness :
    computedOutDir cfgCopy envGuess "/in/sub/IMG.JPG" =
      joinPath ["/out", "unknown", "sub"] ∧
    computedName cfgCopy envGuess "/in/sub/IMG.JPG" =
      strLower (basename "/in/sub/IMG.JPG") := by
  constructor
  · exact c6_amended.2.1 cfgCopy envGuess "/in/sub/IMG.JPG" "sub" (by decide)
      (Or.inr ⟨{ date := none, guessing := true, subseconds := "" },
        by decide, Or.inl rfl⟩)
      (by decide) (by decide) (by decide)
  · exact c6_amended.2.2 cfgCopy envGuess "/in/sub/IMG.JPG" (by decide) rfl
      (Or.inr ⟨{ date := none, guessing := true, subseconds := "" },
        by decide, rfl⟩)

/-- The collision loop walks the chain: when the next `n` candidates hold
content different from the source's and candidate `suffix + n` is free,
the file is copied there (the fingerprint variable holding the source's
fingerprint as soon as one collision occurred), and an untouched sidecar
pair leaves the tail silent. -/
theorem processLoop_chain_copy (cfg : Config) (env : Env)
    (file output tfn tfp : String) (c : Nat)
    (hmove : cfg.move = false) (hlink : cfg.link = false)
    (hdry : cfg.dry_run = false)
    (hxs : XmpSafe tfp) :
    ∀ n suffix chk st fuel, 1 ≤ suffix → n + 1 ≤ fuel →
      assocLookup st.fs.files file = some c →
      assocLookup st.fs.files (file ++ ".xmp") = none →
      assocLookup st.fs.files ((splitext file).1 ++ ".xmp") = none →
      (cfg.output_log = false ∨ chk = some c) →
      (∀ j, j < suffix + n → suffix ≤ j →
        assocLookup st.fs.files (chainTarget tfp j) ≠ none ∧
        assocLookup st.fs.files (chainTarget tfp j) ≠ some c) →
      assocLookup st.fs.files (chainTarget tfp (suffix + n)) = none →
      processLoop cfg env file output tfn tfp chk suffix
        (chainTarget tfp suffix) st fuel =
      Except.ok (stPrint (stAddEntry
        { st with fs := fsWrite st.fs (chainTarget tfp (suffix + n)) c }
        (if n = 0 then chk else some c) file (chainTarget tfp (suffix + n))
        Action.copy) (" => " ++ chainTarget tfp (suffix + n))) := by
  intro n
  induction n with
  | zero =>
    intro suffix chk st fuel hs hfuel hsrc hnx1 hnx2 hchk hprev hfree
    obtain ⟨m, rfl⟩ : ∃ m, fuel = m + 1 := ⟨fuel - 1, by omega⟩
    rw [Nat.add_zero] at hfree
    simp only [Nat.add_zero]
    rw [processLoop_fresh_copy_eq cfg env hfree hmove hlink hdry hsrc]
    simp only [if_true]
    have hnx : strEndsWith (chainTarget tfp suffix) ".xmp" = false :=
      hxs suffix hs
    have hx1 : assocLookup (stPrint (stAddEntry
        { st with fs := fsWrite st.fs (chainTarget tfp suffix) c } chk file
        (chainTarget tfp suffix) Action.copy)
        (" => " ++ chainTarget tfp suffix)).fs.files (file ++ ".xmp")
        = none := by
      show assocLookup (fsWrite st.fs (chainTarget tfp suffix) c).files
        (file ++ ".xmp") = none
      rw [assocLookup_write_other st.fs (chainTarget tfp suffix) c
        (Ne.symm (ne_of_xmp_mismatch (strEndsWith_append file ".xmp") hnx))]
      exact hnx1
    have hx2 : assocLookup (stPrint (stAddEntry
        { st with fs := fsWrite st.fs (chainTarget tfp suffix) c } chk file
        (chainTarget tfp suffix) Action.copy)
        (" => " ++ chainTarget tfp suffix)).fs.files
        ((splitext file).1 ++ ".xmp") = none := by
      show assocLookup (fsWrite st.fs (chainTarget tfp suffix) c).files
        ((splitext file).1 ++ ".xmp") = none
      rw [assocLookup_write_other st.fs (chainTarget tfp suffix) c
        (Ne.symm (ne_of_xmp_mismatch
          (strEndsWith_append (splitext file).1 ".xmp") hnx))]
      exact hnx2
    unfold processFinish
    exact process_xmp_none_eq cfg hx1 hx2
  | succ n ih =>
    intro suffix chk st fuel hs hfuel hsrc hnx1 hnx2 hchk hprev hfree
    obtain ⟨m, rfl⟩ : ∃ m, fuel = m + 1 := ⟨fuel - 1, by omega⟩
    have hj := hprev suffix (by omega) (le_refl suffix)
    cases hd : assocLookup st.fs.files (chainTarget tfp suffix) with
    | none => exact absurd hd hj.1
    | some d =>
      have hne : c ≠ d := by
        intro h
        exact hj.2 (by rw [hd, h])
      rw [processLoop_collide_eq cfg env hsrc hd hne hchk]
      have harith : suffix + 1 + n = suffix + (n + 1) := by omega
      have hprev2 : ∀ j, j < suffix + 1 + n → suffix + 1 ≤ j →
          assocLookup st.fs.files (chainTarget tfp j) ≠ none ∧
          assocLookup st.fs.files (chainTarget tfp j) ≠ some c :=
        fun j hj1 hj2 => hprev j (by omega) (by omega)
      have hfree2 : assocLookup st.fs.files
          (chainTarget tfp (suffix + 1 + n)) = none := by
        rw [harith]
        exact hfree
      have ih2 := ih (suffix + 1) (some c) st m (by omega) (by omega) hsrc
        hnx1 hnx2 (Or.inr rfl) hprev2 hfree2
      rw [ih2, harith, if_neg (Nat.succ_ne_zero n)]
      have hcollapse : (if n = 0 then some c else some c) = some c := by
        split_ifs <;> rfl
      rw [hcollapse]

/-- C1 counterexample: three files with distinct contents all resolving to
`20230101_120000.jpg` are placed at the base name and suffixes `-2`, `-3` -
nothing is ever placed at the claimed `-1` suffix, so the first collision
does not receive `-1`. -/
theorem c1_counterexample :
    finalLookup runJpg3 "/out/archive/2023/01/01/20230101_120000.jpg" = some 1 ∧
    finalLookup runJpg3 "/out/archive/2023/01/01/20230101_120000-1.jpg" = none ∧
    finalLookup runJpg3 "/out/archive/2023/01/01/20230101_120000-2.jpg" = some 2 ∧
    finalLookup runJpg3 "/out/archive/2023/01/01/20230101_120000-3.jpg" = some 3 := by
  decide

/-- C1 (amended): the suffix counter starts at one and is incremented
before naming the first alternative, so when the first `n` chain
candidates (the base name at position one, then `name-2`, `name-3`, ...)
hold content different from the source's and candidate `n + 1` is free,
the file is copied to candidate `n + 1`: the first collision receives
numeric suffix `-2`, not `-1`, and each further collision increments the
suffix by one. In particular three same-named files of pairwise distinct
content land at `name.ext`, `name-2.ext` and `name-3.ext`, with
`name-1.ext` never used. -/
theorem c1_amended :
    (∀ cfg env st file fuel n c,
      cfg.move = false → cfg.link = false → cfg.dry_run = false →
      cfg.output_log = false →
      strEndsWith file ".xmp" = false →
      XmpSafe (computedTargetPath cfg env file) →
      fsIsDir st.fs (output_dir_path cfg (dateArg env file) file) = true →
      assocLookup st.fs.files file = some c →
      assocLookup st.fs.files (file ++ ".xmp") = none →
      assocLookup st.fs.files ((splitext file).1 ++ ".xmp") = none →
      (∀ j, j < n + 1 → 1 ≤ j →
        assocLookup st.fs.files
          (chainTarget (computedTargetPath cfg env file) j) ≠ none ∧
        assocLookup st.fs.files
          (chainTarget (computedTargetPath cfg env file) j) ≠ some c) →
      assocLookup st.fs.files
        (chainTarget (computedTargetPath cfg env file) (n + 1)) = none →
      n + 1 ≤ fuel →
      process_file cfg env st file fuel = Except.ok
        (stPrint (stAddEntry
          (⟨fsWrite st.fs
              (chainTarget (computedTargetPath cfg env file) (n + 1)) c,
            st.log, st.printed ++ [file]⟩ : RunState)
          (if n = 0 then none else some c) file
          (chainTarget (computedTargetPath cfg env file) (n + 1)) Action.copy)
          (" => " ++ chainTarget (computedTargetPath cfg env file) (n + 1)))) ∧
    (finalLookup runJpg3 "/out/archive/2023/01/01/20230101_120000.jpg"
        = some 1 ∧
     finalLookup runJpg3 "/out/archive/2023/01/01/20230101_120000-2.jpg"
        = some 2 ∧
     finalLookup runJpg3 "/out/archive/2023/01/01/20230101_120000-3.jpg"
        = some 3 ∧
     finalLookup runJpg3 "/out/archive/2023/01/01/20230101_120000-1.jpg"
        = none) := by
  constructor
  · intro cfg env st file fuel n c hmove hlink hdry hko hxf hxs hdir hsrc
      hnx1 hnx2 hprev hfree hfuel
    have hxn : ¬ strEndsWith file ".xmp" = true := by
      rw [hxf]; exact Bool.false_ne_true
    unfold process_file
    rw [if_neg hxn]
    dsimp only
    rw [gfnap_eq]
    dsimp only
    have hgd : (get_output_dir cfg (stPrint st file) (dateArg env file)
        file).1 = stPrint st file :=
      get_output_dir_fst_of_isDir hdir
    rw [hgd]
    rw [if_neg (by rw [hko]; exact Bool.false_ne_true)]
    dsimp only
    have hmain := processLoop_chain_copy cfg env file
      (computedOutDir cfg env file) (computedName cfg env file)
      (computedTargetPath cfg env file) c hmove hlink hdry hxs n 1 none
      (stPrint st file) fuel (le_refl 1) (by omega) hsrc hnx1 hnx2
      (Or.inl hko)
      (fun j hj1 hj2 => hprev j (by omega) hj2)
      (by rw [Nat.add_comm 1 n]; exact hfree)
    rw [chainTarget_one] at hmain
    rw [hmain, Nat.add_comm 1 n]
    rfl
  · decide

theorem c1_amended_witness :
    process_file cfgCopy envJpg3 stC1W "/in/a.jpg" 10 = Except.ok
      (stPrint (stAddEntry
        (⟨fsWrite stC1W.fs
            (chainTarget (computedTargetPath cfgCopy envJpg3 "/in/a.jpg") 2) 5,
          stC1W.log, stC1W.printed ++ ["/in/a.jpg"]⟩ : RunState)
        (some 5) "/in/a.jpg"
        (chainTarget (computedTargetPath cfgCopy envJpg3 "/in/a.jpg") 2)
        Action.copy)
        (" => " ++ chainTarget
          (computedTargetPath cfgCopy envJpg3 "/in/a.jpg") 2)) :=
  c1_amended.1 cfgCopy envJpg3 stC1W "/in/a.jpg" 10 1 5
    (by decide) (by decide) (by decide) (by decide) (by decide)
    (xmpSafe_of_fixed_ext (by decide) (by decide) (by decide))
    (by decide) (by decide) (by decide) (by decide)
    (by decide) (by decide) (by decide)

/-- C2 counterexample: after `photo.cr2` is copied to
`20230101_120000.cr2`, the sidecar `photo.cr2.xmp` is copied to
`20230101_120000.cr2.xmp` - the primary's extension is kept - and nothing
lands at the claimed `20230101_120000.xmp`. -/
theorem c2_counterexample :
    finalLookup runCr2WithExt "/out/archive/2023/01/01/20230101_120000.cr2" = some 5 ∧
    finalLookup runCr2WithExt "/out/archive/2023/01/01/20230101_120000.xmp" = none ∧
    finalLookup runCr2WithExt "/out/archive/2023/01/01/20230101_120000.cr2.xmp" = some 9 := by
  decide

/-- C4 counterexample: on the second run over the same input, `/in/a.XMP`
is *copied again* (its sidecar overwrote `a-2.xmp` during the first run),
creating the brand-new destination `a-3.xmp` with a fresh numeric suffix
(immediately overwritten by the sidecar again, hence content 3); and the
sidecar `/in/a.xmp`, a file of the input, receives no log entry at all -
so not every file is marked `skip`, a new destination file is created,
and a numeric suffix is incremented. -/
theorem c4_counterexample :
    finalLookup c4run1 "/out/unknown//in/a-3.xmp" = none ∧
    finalLookup c4run2 "/out/unknown//in/a-3.xmp" = some 3 ∧
    logOf c4run2 =
      [{ hashsum := some 1, src := "/in/a", dst := "/out/unknown//in/a",
         action := Action.skip },
       { hashsum := some 2, src := "/in/a.XMP", dst := "/out/unknown//in/a-3.xmp",
         action := Action.copy }] := by
  decide

/-- C5 counterexample: with two distinct-content files colliding on a fresh
destination, the dry run reports `/in/b.jpg` at the base name while the
real run reports it at suffix `-2`: the dry run does not simulate its own
earlier creations, so its reported destination paths are not identical to
a real run's. -/
theorem c5_counterexample :
    (printedOf runJpg2Dry).getD 3 "" =
      " => /out/archive/2023/01/01/20230101_120000.jpg" ∧
    (printedOf runJpg2Real).getD 3 "" =
      " => /out/archive/2023/01/01/20230101_120000-2.jpg" := by
  decide

/-- C5 (amended): simulation mode performs no filesystem mutation, for any
configuration, traversal and starting state; and for a single file with a
readable source whose collision chain has no sidecar-shaped candidate, the
dry run prints exactly the real run's lines (source, destination and
sidecar reports). Reported paths agree only per-file on a common starting
state: across files the dry run does not simulate its own earlier
creations, so a colliding later file is reported at the base name rather
than at the suffixed one. -/
theorem c5_amended :
    (∀ cfg env files st st' fuel, cfg.dry_run = true →
      processAll cfg env st files fuel = Except.ok st' → st'.fs = st.fs) ∧
    (∀ cfg env st file fuel c st1 st2, cfg.dry_run = false →
      strEndsWith file ".xmp" = false →
      XmpSafe (computedTargetPath cfg env file) →
      assocLookup st.fs.files file = some c →
      process_file { cfg with dry_run := true } env st file fuel
        = Except.ok st1 →
      process_file cfg env st file fuel = Except.ok st2 →
      st1.printed = st2.printed) := by
  constructor
  · intro cfg env files st st' fuel hdry h
    exact processAll_dry_fs cfg env hdry files st st' fuel h
  · intro cfg env st file fuel c st1 st2 hdry hxf hxs hsrc h1 h2
    exact process_file_dry_real_print cfg env hdry hxf hxs hsrc h1 h2

theorem c5_amended_witness :
    (⟨stJpg2.fs, [],
      ["/in/a.jpg", " => /out/archive/2023/01/01/20230101_120000.jpg",
       "/in/b.jpg", " => /out/archive/2023/01/01/20230101_120000.jpg"]⟩ :
      RunState).fs = stJpg2.fs ∧
    (⟨stJpg2.fs, [],
      ["/in/a.jpg", " => /out/archive/2023/01/01/20230101_120000.jpg"]⟩ :
      RunState).printed =
    (⟨⟨[("/out/archive/2023/01/01/20230101_120000.jpg", 1),
        ("/in/a.jpg", 1), ("/in/b.jpg", 2)], ["/out/archive/2023/01/01"]⟩,
      [⟨none, "/in/a.jpg", "/out/archive/2023/01/01/20230101_120000.jpg",
        Action.copy⟩],
      ["/in/a.jpg", " => /out/archive/2023/01/01/20230101_120000.jpg"]⟩ :
      RunState).printed :=
  ⟨c5_amended.1 cfgDry envJpg3 ["/in/a.jpg", "/in/b.jpg"] stJpg2 _ 10
    (by decide) (by decide),
   c5_amended.2 cfgCopy envJpg3 stJpg2 "/in/a.jpg" 10 1 _ _
    (by decide) (by decide)
    (xmpSafe_of_fixed_ext (by decide) (by decide) (by decide))
    (by decide) (by decide) (by decide)⟩

/-- C6 counterexample: a dateless (guessed-date) file `/in/sub/IMG.JPG`
lands under the claimed directory `/out/unknown/sub`, but as `img.jpg`,
not under its unchanged name: classified files' fallback names are
lowercased. -/
theorem c6_counterexample :
    finalLookup runGuess "/out/unknown/sub/IMG.JPG" = none ∧
    finalLookup runGuess "/out/unknown/sub/img.jpg" = some 4 := by
  decide

/-- C7: with preserve-original-names active, the classified file
`/in/IMG.JPG` is nevertheless placed as `img.jpg`: the unconditional
lowercasing of the classified branch (line 232) overrides the requested
exact preservation, contradicting the conditional lowercasing right below
it (lines 233-234) that applies only when original names are *not*
requested. -/
theorem c7_bug :
    computedName cfgOrig envUpper "/in/IMG.JPG" = "img.jpg" ∧
    basename "/in/IMG.JPG" = "IMG.JPG" ∧
    finalLookup runUpper "/out/archive/2023/01/01/IMG.JPG" = none ∧
    finalLookup runUpper "/out/archive/2023/01/01/img.jpg" = some 4 := by
  decide

/-- C8 counterexample: with logging disabled and no name collision, the
successful copy's log entry is keyed by the empty-string placeholder
(`none`), not by the file's content fingerprint (`some 7`): the
fingerprint is simply never computed for that file. -/
theorem c8_counterexample :
    assocLookup stSingle7.fs.files "/in/a.jpg" = some 7 ∧
    logOf runSingle7 =
      [{ hashsum := none, src := "/in/a.jpg",
         dst := "/out/archive/2023/01/01/20230101_120000.jpg",
         action := Action.copy }] := by
  decide

/-- C8 (amended): a skipped transfer logs exactly one entry keyed by the
file's fingerprint, which the collision check computes even when logging
is disabled; a succeeding transfer logs exactly one entry keyed by the
current value of the lazily computed fingerprint variable - the real
fingerprint when logging is enabled (or a collision already forced it),
the empty placeholder when logging is disabled and the first candidate was
free; and entries append in order under their key. -/
theorem c8_amended :
    (∀ cfg env file output tfn tfp chk suffix target st fuel c,
      assocLookup st.fs.files file = some c →
      assocLookup st.fs.files target = some c →
      (cfg.output_log = false ∨ chk = some c) →
      processLoop cfg env file output tfn tfp chk suffix target st (fuel + 1)
        = Except.ok (stPrint (stAddEntry st (some c) file target Action.skip)
            (" => skipped, duplicated file " ++ target)) ∧
      (stPrint (stAddEntry st (some c) file target Action.skip)
        (" => skipped, duplicated file " ++ target)).log
        = st.log ++ [⟨some c, file, target, Action.skip⟩]) ∧
    (∀ cfg env file output tfn tfp chk suffix target st fuel c,
      cfg.move = false → cfg.link = false → cfg.dry_run = false →
      assocLookup st.fs.files file = some c →
      assocLookup st.fs.files target = none →
      strEndsWith target ".xmp" = false →
      assocLookup st.fs.files (file ++ ".xmp") = none →
      assocLookup st.fs.files ((splitext file).1 ++ ".xmp") = none →
      processLoop cfg env file output tfn tfp chk suffix target st (fuel + 1)
        = Except.ok (stPrint
            (stAddEntry { st with fs := fsWrite st.fs target c } chk file
              target Action.copy) (" => " ++ target)) ∧
      (stPrint (stAddEntry { st with fs := fsWrite st.fs target c } chk file
        target Action.copy) (" => " ++ target)).log
        = st.log ++ [⟨chk, file, target, Action.copy⟩]) ∧
    (∀ log h s d a, entriesFor (add_entry log h s d a) h
        = entriesFor log h ++ [⟨h, s, d, a⟩]) ∧
    (∀ log h s d a h', h' ≠ h →
      entriesFor (add_entry log h s d a) h' = entriesFor log h') := by
  refine ⟨?_, ?_, ?_, ?_⟩
  · intro cfg env file output tfn tfp chk suffix target st fuel c hsrc htgt hchk
    refine ⟨processLoop_skip_eq cfg env hsrc htgt hchk, ?_⟩
    simp [stPrint, stAddEntry, add_entry]
  · intro cfg env file output tfn tfp chk suffix target st fuel c hmove hlink
      hdry hsrc hfresh htx hnx1 hnx2
    rw [processLoop_fresh_copy_eq cfg env hfresh hmove hlink hdry hsrc]
    have hx1 : assocLookup (stPrint
        (stAddEntry { st with fs := fsWrite st.fs target c } chk file target
          Action.copy) (" => " ++ target)).fs.files (file ++ ".xmp") = none := by
      show assocLookup (fsWrite st.fs target c).files (file ++ ".xmp") = none
      rw [assocLookup_write_other st.fs target c
        (Ne.symm (ne_of_xmp_mismatch (strEndsWith_append file ".xmp") htx))]
      exact hnx1
    have hx2 : assocLookup (stPrint
        (stAddEntry { st with fs := fsWrite st.fs target c } chk file target
          Action.copy) (" => " ++ target)).fs.files
        ((splitext file).1 ++ ".xmp") = none := by
      show assocLookup (fsWrite st.fs target c).files
        ((splitext file).1 ++ ".xmp") = none
      rw [assocLookup_write_other st.fs target c
        (Ne.symm (ne_of_xmp_mismatch (strEndsWith_append (splitext file).1
          ".xmp") htx))]
      exact hnx2
    refine ⟨?_, ?_⟩
    · unfold processFinish
      exact process_xmp_none_eq cfg hx1 hx2
    · simp [stPrint, stAddEntry, add_entry]
  · intro log h s d a
    simp [entriesFor, add_entry, List.filter_append]
  · intro log h s d a h' hne
    simp [entriesFor, add_entry, List.filter_append, Ne.symm hne]

theorem c8_amended_witness :
    (processLoop cfgCopy envNone "/in/a.jpg" "/out" "t"
        "/out/archive/2023/01/01/20230101_120000.jpg" none 1
        "/out/archive/2023/01/01/20230101_120000.jpg" stDup 1
      = Except.ok (stPrint (stAddEntry stDup (some 1) "/in/a.jpg"
          "/out/archive/2023/01/01/20230101_120000.jpg" Action.skip)
          (" => skipped, duplicated file /out/archive/2023/01/01/20230101_120000.jpg")) ∧
     (stPrint (stAddEntry stDup (some 1) "/in/a.jpg"
        "/out/archive/2023/01/01/20230101_120000.jpg" Action.skip)
        (" => skipped, duplicated file /out/archive/2023/01/01/20230101_120000.jpg")).log
      = stDup.log ++ [⟨some 1, "/in/a.jpg",
          "/out/archive/2023/01/01/20230101_120000.jpg", Action.skip⟩]) ∧
    (processLoop cfgCopy envNone "/in/a.jpg" "/out" "t" "/out/t.jpg" none 1
        "/out/x.jpg" stSingle7 1
      = Except.ok (stPrint (stAddEntry
          { stSingle7 with fs := fsWrite stSingle7.fs "/out/x.jpg" 7 } none
          "/in/a.jpg" "/out/x.jpg" Action.copy) (" => /out/x.jpg")) ∧
     (stPrint (stAddEntry
        { stSingle7 with fs := fsWrite stSingle7.fs "/out/x.jpg" 7 } none
        "/in/a.jpg" "/out/x.jpg" Action.copy) (" => /out/x.jpg")).log
      = stSingle7.log ++ [⟨none, "/in/a.jpg", "/out/x.jpg", Action.copy⟩]) ∧
    entriesFor (add_entry [] (some 5) "s" "d" Action.copy) (some 5)
      = entriesFor [] (some 5) ++ [⟨some 5, "s", "d", Action.copy⟩] ∧
    entriesFor (add_entry [] (some 5) "s" "d" Action.copy) none
      = entriesFor [] none :=
  ⟨c8_amended.1 cfgCopy envNone "/in/a.jpg" "/out" "t"
      "/out/archive/2023/01/01/20230101_120000.jpg" none 1
      "/out/archive/2023/01/01/20230101_120000.jpg" stDup 0 1
      (by decide) (by decide) (Or.inl (by decide)),
   c8_amended.2.1 cfgCopy envNone "/in/a.jpg" "/out" "t" "/out/t.jpg" none 1
      "/out/x.jpg" stSingle7 0 7
      (by decide) (by decide) (by decide) (by decide) (by decide) (by decide)
      (by decide) (by decide),
   c8_amended.2.2.1 [] (some 5) "s" "d" Action.copy,
   c8_amended.2.2.2 [] (some 5) "s" "d" Action.copy none (by decide)⟩

/-- `walk_step` on a vanished source under copy or move: the per-file
`FileNotFoundError` is caught and reported as a skip note. -/
theorem walk_step_missing_skip (cfg : Config) (env : Env)
    {st : RunState} {file : String} {fuel : Nat}
    (hig : ignored_files.any (fun n => n == basename file) = false)
    (hxf : strEndsWith file ".xmp" = false)
    (hol : cfg.output_log = false)
    (hdry : cfg.dry_run = false)
    (hbranch : cfg.move = true ∨ cfg.link = false)
    (hmiss : assocLookup st.fs.files file = none)
    (hfresh : assocLookup st.fs.files (computedTargetPath cfg env file) = none)
    (hfuel : 1 ≤ fuel) :
    walk_step cfg env st file fuel =
      Except.ok (stPrint (get_output_dir cfg (stPrint st file)
        (dateArg env file) file).1
        " => skipped, no such file or directory") := by
  have hg := get_output_dir_fst cfg (stPrint st file) (dateArg env file) file
  have hmiss2 : assocLookup (get_output_dir cfg (stPrint st file)
      (dateArg env file) file).1.fs.files file = none := by
    rw [hg.1]; exact hmiss
  have hfresh2 : assocLookup (get_output_dir cfg (stPrint st file)
      (dateArg env file) file).1.fs.files
      (computedTargetPath cfg env file) = none := by
    rw [hg.1]; exact hfresh
  unfold walk_step
  rw [if_neg (by rw [hig]; exact Bool.false_ne_true)]
  unfold process_file
  rw [if_neg (by rw [hxf]; exact Bool.false_ne_true)]
  dsimp only
  rw [gfnap_eq]
  dsimp only
  rw [if_neg (by rw [hol]; exact Bool.false_ne_true)]
  dsimp only
  cases fuel with
  | zero => exact absurd hfuel (by decide)
  | succ k => rw [processLoop_fresh_missing_eq cfg env hfresh2 hmiss2 hdry hbranch]

/-- `walk_step` on a vanished source under link: `os.link` has no handler,
so the `FileNotFoundError` escapes. -/
theorem walk_step_missing_link (cfg : Config) (env : Env)
    {st : RunState} {file : String} {fuel : Nat}
    (hig : ignored_files.any (fun n => n == basename file) = false)
    (hxf : strEndsWith file ".xmp" = false)
    (hol : cfg.output_log = false)
    (hdry : cfg.dry_run = false)
    (hmove : cfg.move = false) (hlink : cfg.link = true)
    (hmiss : assocLookup st.fs.files file = none)
    (hfresh : assocLookup st.fs.files (computedTargetPath cfg env file) = none)
    (hfuel : 1 ≤ fuel) :
    walk_step cfg env st file fuel =
      Except.error (PErr.fileNotFound file) := by
  have hg := get_output_dir_fst cfg (stPrint st file) (dateArg env file) file
  have hmiss2 : assocLookup (get_output_dir cfg (stPrint st file)
      (dateArg env file) file).1.fs.files file = none := by
    rw [hg.1]; exact hmiss
  have hfresh2 : assocLookup (get_output_dir cfg (stPrint st file)
      (dateArg env file) file).1.fs.files
      (computedTargetPath cfg env file) = none := by
    rw [hg.1]; exact hfresh
  unfold walk_step
  rw [if_neg (by rw [hig]; exact Bool.false_ne_true)]
  unfold process_file
  rw [if_neg (by rw [hxf]; exact Bool.false_ne_true)]
  dsimp only
  rw [gfnap_eq]
  dsimp only
  rw [if_neg (by rw [hol]; exact Bool.false_ne_true)]
  dsimp only
  cases fuel with
  | zero => exact absurd hfuel (by decide)
  | succ k =>
    rw [processLoop_fresh_link_missing_eq cfg env hfresh2 hmiss2 hdry hmove hlink]

/-- C9 counterexample: under the link strategy, a source that disappeared
between discovery and transfer aborts the whole run with an uncaught
`FileNotFoundError` (`os.link` is not wrapped in try/except, unlike move
and copy), so the error is not recovered locally under every strategy. -/
theorem c9_counterexample :
    errOf (processAll cfgLink envNone stGone ["/in/gone.jpg"] 10) =
      some (PErr.fileNotFound "/in/gone.jpg") := by
  decide

/-- C9 (amended): a source that vanishes before its transfer is recovered
locally under the copy and move strategies - the file is reported with the
note "skipped, no such file or directory", the file table and log are
untouched, and traversal continues with the remaining files - but under
the hard-link strategy the unhandled error aborts the whole run. -/
theorem c9_amended :
    (∀ cfg env st file rest fuel,
      ignored_files.any (fun n => n == basename file) = false →
      strEndsWith file ".xmp" = false →
      cfg.output_log = false → cfg.dry_run = false →
      (cfg.move = true ∨ cfg.link = false) →
      assocLookup st.fs.files file = none →
      assocLookup st.fs.files (computedTargetPath cfg env file) = none →
      1 ≤ fuel →
      walk_step cfg env st file fuel =
        Except.ok (stPrint (get_output_dir cfg (stPrint st file)
          (dateArg env file) file).1
          " => skipped, no such file or directory") ∧
      (stPrint (get_output_dir cfg (stPrint st file)
        (dateArg env file) file).1
        " => skipped, no such file or directory").fs.files = st.fs.files ∧
      (stPrint (get_output_dir cfg (stPrint st file)
        (dateArg env file) file).1
        " => skipped, no such file or directory").log = st.log ∧
      (stPrint (get_output_dir cfg (stPrint st file)
        (dateArg env file) file).1
        " => skipped, no such file or directory").printed =
        st.printed ++ [file, " => skipped, no such file or directory"] ∧
      processAll cfg env st (file :: rest) fuel =
        processAll cfg env
          (stPrint (get_output_dir cfg (stPrint st file)
            (dateArg env file) file).1
            " => skipped, no such file or directory") rest fuel) ∧
    (∀ cfg env st file rest fuel,
      ignored_files.any (fun n => n == basename file) = false →
      strEndsWith file ".xmp" = false →
      cfg.output_log = false → cfg.dry_run = false →
      cfg.move = false → cfg.link = true →
      assocLookup st.fs.files file = none →
      assocLookup st.fs.files (computedTargetPath cfg env file) = none →
      1 ≤ fuel →
      processAll cfg env st (file :: rest) fuel =
        Except.error (PErr.fileNotFound file)) := by
  constructor
  · intro cfg env st file rest fuel hig hxf hol hdry hbranch hmiss hfresh hfuel
    have hg := get_output_dir_fst cfg (stPrint st file) (dateArg env file) file
    have hws := walk_step_missing_skip cfg env hig hxf hol hdry hbranch
      hmiss hfresh hfuel
    refine ⟨hws, ?_, ?_, ?_, ?_⟩
    · show (get_output_dir cfg (stPrint st file)
        (dateArg env file) file).1.fs.files = st.fs.files
      rw [hg.1]
      rfl
    · show (get_output_dir cfg (stPrint st file)
        (dateArg env file) file).1.log = st.log
      rw [hg.2.1]
      rfl
    · show (get_output_dir cfg (stPrint st file)
        (dateArg env file) file).1.printed
        ++ [" => skipped, no such file or directory"] =
        st.printed ++ [file, " => skipped, no such file or directory"]
      rw [hg.2.2.1]
      show (st.printed ++ [file])
        ++ [" => skipped, no such file or directory"] = _
      rw [List.append_assoc]
      rfl
    · conv_lhs => rw [processAll]
      rw [hws]
  · intro cfg env st file rest fuel hig hxf hol hdry hmove hlink hmiss
      hfresh hfuel
    have hws := walk_step_missing_link cfg env hig hxf hol hdry hmove hlink
      hmiss hfresh hfuel
    conv_lhs => rw [processAll]
    rw [hws]

theorem c9_amended_witness :
    (walk_step cfgCopy envNone stGone "/in/gone.jpg" 10 =
      Except.ok (stPrint (get_output_dir cfgCopy (stPrint stGone "/in/gone.jpg")
        (dateArg envNone "/in/gone.jpg") "/in/gone.jpg").1
        " => skipped, no such file or directory") ∧
     (stPrint (get_output_dir cfgCopy (stPrint stGone "/in/gone.jpg")
       (dateArg envNone "/in/gone.jpg") "/in/gone.jpg").1
       " => skipped, no such file or directory").fs.files = stGone.fs.files ∧
     (stPrint (get_output_dir cfgCopy (stPrint stGone "/in/gone.jpg")
       (dateArg envNone "/in/gone.jpg") "/in/gone.jpg").1
       " => skipped, no such file or directory").log = stGone.log ∧
     (stPrint (get_output_dir cfgCopy (stPrint stGone "/in/gone.jpg")
       (dateArg envNone "/in/gone.jpg") "/in/gone.jpg").1
       " => skipped, no such file or directory").printed =
       stGone.printed ++ ["/in/gone.jpg",
         " => skipped, no such file or directory"] ∧
     processAll cfgCopy envNone stGone ["/in/gone.jpg"] 10 =
       processAll cfgCopy envNone
         (stPrint (get_output_dir cfgCopy (stPrint stGone "/in/gone.jpg")
           (dateArg envNone "/in/gone.jpg") "/in/gone.jpg").1
           " => skipped, no such file or directory") [] 10) ∧
    processAll cfgLink envNone stGone ["/in/gone.jpg"] 10 =
      Except.error (PErr.fileNotFound "/in/gone.jpg") :=
  ⟨c9_amended.1 cfgCopy envNone stGone "/in/gone.jpg" [] 10
    (by decide) (by decide) (by decide) (by decide) (Or.inr (by decide))
    (by decide) (by decide) (by decide),
   c9_amended.2 cfgLink envNone stGone "/in/gone.jpg" [] 10
    (by decide) (by decide) (by decide) (by decide) (by decide) (by decide)
    (by decide) (by decide) (by decide)⟩


end Phockup
